import Mathlib

/-!
Verification of the request-resolution pipeline of the ethereum-rpc-cache-proxy
repository.  Each section shallowly embeds one source module (JavaScript) as
executable Lean definitions; the theorems at the end settle the specification
claims against those definitions.

Conventions used throughout the embedding:
* JavaScript numbers that the program uses as counters, timestamps or block
  heights are modelled as `Nat`/`Int`; `parseInt` results that may be `NaN`
  are modelled with an explicit `nan`/`Option` constructor, and the JS rule
  that every comparison with `NaN` is false is reproduced at each use site.
* `JSON.stringify`/`JSON.parse` are platform functions; they are modelled
  below by `Json.stringify`/`Json.parse` (compact form, insertion-order keys,
  integer numerals; insignificant whitespace is not modelled because every
  string parsed by this program was produced by `stringify`, which emits none).
* Async functions are modelled as pure functions over explicit state plus the
  outcome of their awaited calls.
-/

namespace Proxy

/-! ## JSON values (the data carried by requests, caches and responses) -/

inductive Json where
  | null
  | bool (b : Bool)
  | num (n : Int)
  | str (s : String)
  | arr (items : List Json)
  | obj (fields : List (String × Json))

/-- Decimal digit character, as emitted by JS number-to-string conversion. -/
def digitChar (d : Nat) : Char :=
  if d = 0 then '0' else if d = 1 then '1' else if d = 2 then '2'
  else if d = 3 then '3' else if d = 4 then '4' else if d = 5 then '5'
  else if d = 6 then '6' else if d = 7 then '7' else if d = 8 then '8' else '9'

def natToCharsAux (n : Nat) (acc : List Char) : List Char :=
  if h : n < 10 then digitChar n :: acc
  else natToCharsAux (n / 10) (digitChar (n % 10) :: acc)
termination_by n
decreasing_by exact Nat.div_lt_self (by omega) (by omega)

/-- Decimal representation of a natural number (JS `String(n)`). -/
def natToChars (n : Nat) : List Char := natToCharsAux n []

/-- Decimal representation of an integer (JS `String(n)` for integral values). -/
def intToChars (n : Int) : List Char :=
  if n < 0 then '-' :: natToChars n.natAbs else natToChars n.toNat

/-- Lowercase hexadecimal digit, as used in `\u00XX` escapes. -/
def hexChar (d : Nat) : Char :=
  if d < 10 then digitChar d
  else if d = 10 then 'a' else if d = 11 then 'b' else if d = 12 then 'c'
  else if d = 13 then 'd' else if d = 14 then 'e' else 'f'

/-- JSON string escaping of one character (model of what `JSON.stringify`
emits inside string literals). -/
def escChar (c : Char) : List Char :=
  if c = '"' then ['\\', '"']
  else if c = '\\' then ['\\', '\\']
  else if c = '\x08' then ['\\', 'b']
  else if c = '\t' then ['\\', 't']
  else if c = '\n' then ['\\', 'n']
  else if c = '\x0c' then ['\\', 'f']
  else if c = '\x0d' then ['\\', 'r']
  else if c.toNat < 32 then
    ['\\', 'u', '0', '0', hexChar (c.toNat / 16), hexChar (c.toNat % 16)]
  else [c]

def escStr : List Char → List Char
  | [] => []
  | c :: cs => escChar c ++ escStr cs

mutual
/-- Compact JSON rendering (model of `JSON.stringify`): no whitespace, object
keys in insertion order. -/
def stringifyChars : Json → List Char
  | .null => ['n', 'u', 'l', 'l']
  | .bool true => 't' :: ['r', 'u', 'e']
  | .bool false => 'f' :: ['a', 'l', 's', 'e']
  | .num n => intToChars n
  | .str s => '"' :: (escStr s.data ++ ['"'])
  | .arr [] => ['[', ']']
  | .arr (v :: vs) => '[' :: (stringifyChars v ++ (stringifyItems vs ++ [']']))
  | .obj [] => ['\x7b', '\x7d']
  | .obj (f :: fs) => '\x7b' :: (stringifyField f ++ (stringifyFields fs ++ ['\x7d']))

def stringifyItems : List Json → List Char
  | [] => []
  | v :: vs => ',' :: (stringifyChars v ++ stringifyItems vs)

def stringifyField : String × Json → List Char
  | (k, v) => '"' :: (escStr k.data ++ ('"' :: ':' :: stringifyChars v))

def stringifyFields : List (String × Json) → List Char
  | [] => []
  | f :: fs => ',' :: (stringifyField f ++ stringifyFields fs)
end

def Json.stringify (j : Json) : String := ⟨stringifyChars j⟩

/-! ## Method policy (src/config/methodCaching.js) -/

/-- Configuration slice `config.cache` (src/config/index.js defaults). -/
structure CacheConfig where
  permanentCacheHeight : Nat
  latestBlockTtl : Nat
  ethCallTtl : Nat
  recentBlockTtl : Nat

def defaultCacheConfig : CacheConfig :=
  { permanentCacheHeight := 15537393, latestBlockTtl := 2
    ethCallTtl := 300, recentBlockTtl := 60 }

/-- JS `a || b` on numbers (0 is falsy). -/
def jsOr (n d : Nat) : Nat := if n = 0 then d else n

/-- Result of `extractBlockNumber`: a tag string, a JS number (possibly the
result of `parseInt`), `NaN`, or `null`. -/
inductive BlockParam where
  | tag (s : String)
  | num (n : Int)
  | nan
  | null
deriving DecidableEq

def isHexDigitChar (c : Char) : Bool :=
  ('0' ≤ c && c ≤ '9') || ('a' ≤ c && c ≤ 'f') || ('A' ≤ c && c ≤ 'F')

def hexCharVal (c : Char) : Nat :=
  if c ≤ '9' then c.toNat - 48 else if c ≤ 'F' then c.toNat - 55 else c.toNat - 87

/-- Longest prefix of hexadecimal digits. -/
def hexDigitsPref : List Char → List Char
  | [] => []
  | c :: cs => if isHexDigitChar c then c :: hexDigitsPref cs else []

def hexValOfDigits (cs : List Char) : Nat :=
  cs.foldl (fun a c => a * 16 + hexCharVal c) 0

/-- Strip an optional `0x`/`0X` marker, as `parseInt(s, 16)` does. -/
def stripHexMarker : List Char → List Char
  | '0' :: 'x' :: r => r
  | '0' :: 'X' :: r => r
  | cs => cs

def hexNatOfChars (cs : List Char) : Option Nat :=
  let ds := hexDigitsPref (stripHexMarker cs)
  if ds = [] then Option.none else some (hexValOfDigits ds)

/-- Model of JS `parseInt(s, 16)`: optional sign, optional `0x` marker, then
the longest hexadecimal-digit prefix; `none` is `NaN`.  (Leading whitespace is
not modelled; the program only passes raw request parameters.) -/
def parseIntHex (s : String) : Option Int :=
  match s.data with
  | '-' :: rest => (hexNatOfChars rest).map (fun n => -(n : Int))
  | '+' :: rest => (hexNatOfChars rest).map (fun n => (n : Int))
  | cs => (hexNatOfChars cs).map (fun n => (n : Int))

def isBlockTag (s : String) : Bool :=
  s = "latest" || s = "pending" || s = "earliest"

/-- `extractBlockNumber(params)` from methodCaching.js.  Note that it
inspects `params[0]` first and, whenever that is a string, commits to it —
even when the string is an address rather than a block identifier. -/
def extractBlockNumber (params : Option (List Json)) : BlockParam :=
  match params with
  | Option.none => .null
  | some [] => .null
  | some (p0 :: rest) =>
    match p0 with
    | .str s =>
      if isBlockTag s then .tag s
      else
        match parseIntHex s with
        | some n => .num n
        | Option.none => .nan
    | _ =>
      match rest with
      | [] => .null
      | p1 :: _ =>
        match p1 with
        | .str s =>
          if isBlockTag s then .tag s
          else
            match parseIntHex s with
            | some n => .num n
            | Option.none => .nan
        | _ => .null

/-- JS truthiness of a JSON value. -/
def jsTruthy : Json → Bool
  | .null => false
  | .bool b => b
  | .num n => decide (n ≠ 0)
  | .str s => decide (s ≠ "")
  | .arr _ => true
  | .obj _ => true

/-- Property access `j.k`: `none` models `undefined`. -/
def jsField : Json → String → Option Json
  | .obj fs, k => fs.lookup k
  | _, _ => Option.none

/-- `j.k` when truthy, else `none` (models `if (j.k)` guards). -/
def truthyField (j : Json) (k : String) : Option Json :=
  match jsField j k with
  | some v => if jsTruthy v then some v else Option.none
  | Option.none => Option.none

/-- TTL values: `none` is permanent (JS `null`), `some 0` is do-not-cache. -/
abbrev Ttl := Option Nat

def immutableTTL (_method : String) (_params : Option (List Json)) : Ttl :=
  Option.none

def blocksTTL (cfg : CacheConfig) (method : String) (params : Option (List Json)) : Ttl :=
  if method = "eth_blockNumber" then some (jsOr cfg.latestBlockTtl 2)
  else
    match extractBlockNumber params with
    | .tag s =>
      if s = "latest" then some (jsOr cfg.latestBlockTtl 2)
      else if s = "pending" then some 1
      else if s = "earliest" then some 3600
      else some 30
    | .num n =>
      if n ≤ (jsOr cfg.permanentCacheHeight 15537393 : Nat) then Option.none
      else some (jsOr cfg.recentBlockTtl 60)
    | .nan => some (jsOr cfg.recentBlockTtl 60)
    | .null => some 30

def accountStateTTL (cfg : CacheConfig) (method : String) (params : Option (List Json)) : Ttl :=
  if method = "eth_getCode" then some 300
  else
    match extractBlockNumber params with
    | .num n =>
      if n ≤ (jsOr cfg.permanentCacheHeight 15537393 : Nat) then Option.none
      else some 300
    | .nan => some 300
    | _ => some 15

def gasTTL (cfg : CacheConfig) (method : String) (params : Option (List Json)) : Ttl :=
  if method = "eth_feeHistory" then
    match extractBlockNumber params with
    | .num n =>
      if n < (jsOr cfg.permanentCacheHeight 15537393 : Nat) then some 3600 else some 5
    | _ => some 5
  else some 5

def logsTTL (cfg : CacheConfig) (method : String) (params : Option (List Json)) : Ttl :=
  if method = "eth_getLogs" then
    match params with
    | some (f :: _) =>
      if jsTruthy f then
        match truthyField f "fromBlock", truthyField f "toBlock" with
        | some fb, some tb =>
          match extractBlockNumber (some [fb]), extractBlockNumber (some [tb]) with
          | .num _, .num t =>
            if t ≤ (jsOr cfg.permanentCacheHeight 15537393 : Nat) then Option.none
            else some 300
          | .num _, .nan => some 300
          | .nan, .num t =>
            if t ≤ (jsOr cfg.permanentCacheHeight 15537393 : Nat) then Option.none
            else some 300
          | .nan, .nan => some 300
          | _, _ => some 10
        | _, _ => some 10
      else some 10
    | _ => some 10
  else some 10

def networkTTL (method : String) (_params : Option (List Json)) : Ttl :=
  if method = "eth_chainId" ∨ method = "net_version" then some 3600
  else if method = "eth_syncing" then some 30
  else some 300

def contractCallsTTL (cfg : CacheConfig) (method : String) (params : Option (List Json)) : Ttl :=
  if method = "eth_call" then
    match params with
    | some (p0 :: rest) =>
      if jsTruthy p0 then
        let blockTag : Json :=
          match rest with
          | p1 :: _ => if jsTruthy p1 then p1 else .str "latest"
          | [] => .str "latest"
        let isLatestOrPending : Bool :=
          match blockTag with
          | .str s => s = "latest" || s = "pending"
          | _ => false
        if isLatestOrPending then some (jsOr cfg.ethCallTtl 300)
        else
          match extractBlockNumber (some [blockTag]) with
          | .num n =>
            if n ≤ (jsOr cfg.permanentCacheHeight 15537393 : Nat) then Option.none
            else some 300
          | _ => some 300
      else some (jsOr cfg.ethCallTtl 300)
    | _ => some (jsOr cfg.ethCallTtl 300)
  else some 60

def miningTTL (_method : String) (_params : Option (List Json)) : Ttl := some 10

def proofsTTL (cfg : CacheConfig) (_method : String) (params : Option (List Json)) : Ttl :=
  match params with
  | some (_ :: _ :: p2 :: _) =>
    match extractBlockNumber (some [p2]) with
    | .num n =>
      if n ≤ (jsOr cfg.permanentCacheHeight 15537393 : Nat) then Option.none
      else some 60
    | _ => some 60
  | _ => some 60

def neverCacheTTL (_method : String) (_params : Option (List Json)) : Ttl := some 0

def immutableMethods : List String :=
  ["eth_getTransactionByHash", "eth_getTransactionReceipt", "eth_getBlockByHash",
   "eth_getTransactionByBlockHashAndIndex", "eth_getTransactionByBlockNumberAndIndex",
   "eth_getUncleByBlockHashAndIndex", "eth_getUncleByBlockNumberAndIndex"]

def blockMethods : List String :=
  ["eth_blockNumber", "eth_getBlockByNumber", "eth_getBlockTransactionCountByHash",
   "eth_getBlockTransactionCountByNumber", "eth_getUncleCountByBlockHash",
   "eth_getUncleCountByBlockNumber"]

def accountStateMethods : List String :=
  ["eth_getBalance", "eth_getTransactionCount", "eth_getCode", "eth_getStorageAt"]

def gasMethods : List String :=
  ["eth_gasPrice", "eth_estimateGas", "eth_maxPriorityFeePerGas", "eth_feeHistory"]

def logsMethods : List String := ["eth_getLogs", "eth_getFilterLogs"]

def networkMethods : List String :=
  ["net_version", "eth_chainId", "net_listening", "net_peerCount",
   "web3_clientVersion", "eth_protocolVersion", "eth_syncing"]

def contractCallMethods : List String := ["eth_call", "eth_createAccessList"]

def miningMethods : List String := ["eth_mining", "eth_hashrate", "eth_getWork"]

def proofMethods : List String := ["eth_getProof"]

def neverCacheMethods : List String :=
  ["eth_sendTransaction", "eth_sendRawTransaction", "eth_sign", "eth_signTransaction",
   "eth_signTypedData", "eth_signTypedData_v3", "eth_signTypedData_v4",
   "personal_sign", "personal_sendTransaction", "personal_unlockAccount",
   "personal_newAccount", "personal_lockAccount",
   "eth_newFilter", "eth_newBlockFilter", "eth_newPendingTransactionFilter",
   "eth_uninstallFilter", "eth_getFilterChanges",
   "eth_submitWork", "eth_submitHashrate",
   "eth_pendingTransactions",
   "txpool_content", "txpool_inspect", "txpool_status"]

inductive MethodCategory where
  | immutable | blocks | accountState | gas | logs | network
  | contractCalls | mining | proofs | neverCache | unknown
deriving DecidableEq

/-- `getMethodCacheConfig`: categories are scanned in the insertion order of
`METHOD_CACHE_RULES`; unmatched methods fall back to the `unknown` rule. -/
def methodCategory (m : String) : MethodCategory :=
  if immutableMethods.contains m then .immutable
  else if blockMethods.contains m then .blocks
  else if accountStateMethods.contains m then .accountState
  else if gasMethods.contains m then .gas
  else if logsMethods.contains m then .logs
  else if networkMethods.contains m then .network
  else if contractCallMethods.contains m then .contractCalls
  else if miningMethods.contains m then .mining
  else if proofMethods.contains m then .proofs
  else if neverCacheMethods.contains m then .neverCache
  else .unknown

/-- `getMethodTTL(method, params)`. -/
def getMethodTTL (cfg : CacheConfig) (m : String) (p : Option (List Json)) : Ttl :=
  match methodCategory m with
  | .immutable => immutableTTL m p
  | .blocks => blocksTTL cfg m p
  | .accountState => accountStateTTL cfg m p
  | .gas => gasTTL cfg m p
  | .logs => logsTTL cfg m p
  | .network => networkTTL m p
  | .contractCalls => contractCallsTTL cfg m p
  | .mining => miningTTL m p
  | .proofs => proofsTTL cfg m p
  | .neverCache => neverCacheTTL m p
  | .unknown => some 10

/-- `shouldCacheMethod(method, params)`: not in the never-cache category and
TTL strictly different from `0` (`null` = permanent is cacheable). -/
def shouldCacheMethod (cfg : CacheConfig) (m : String) (p : Option (List Json)) : Bool :=
  if methodCategory m = .neverCache then false
  else decide (getMethodTTL cfg m p ≠ some 0)

/-- `generateMethodCacheKey(method, params)`:
`method + ":" + JSON.stringify(params || [])`. -/
def generateMethodCacheKey (m : String) (p : Option (List Json)) : String :=
  m ++ ":" ++ Json.stringify (.arr (p.getD []))

/-- The classification triple `(cacheable, ttl, fingerprint)` computed by the
method policy for one request. -/
def methodPolicyTriple (cfg : CacheConfig) (m : String) (p : Option (List Json)) :
    Bool × Ttl × String :=
  (shouldCacheMethod cfg m p, getMethodTTL cfg m p, generateMethodCacheKey m p)

/-! ## Circuit breaker (src/utils/circuitBreaker.js) -/

inductive CBState where
  | closed
  | opened    -- `OPEN` in the source (`open` is a Lean keyword)
  | halfOpen
deriving DecidableEq

structure CBConfig where
  failureThreshold : Nat
  successThreshold : Nat
  resetTimeout : Nat
  volumeThreshold : Nat
  errorThresholdPercentage : Nat
  windowSize : Nat

structure CB where
  state : CBState
  failures : Nat
  successes : Nat
  nextAttempt : Nat
  rollingWindow : List (Nat × Bool)   -- (timestamp, success) samples

/-- `transition(newState)`: `OPEN` sets `nextAttempt`; `HALF_OPEN` and
`CLOSED` reset the transient counters. -/
def transitionTo (cfg : CBConfig) (now : Nat) (cb : CB) : CBState → CB
  | .opened => { cb with state := .opened, nextAttempt := now + cfg.resetTimeout }
  | .halfOpen => { cb with state := .halfOpen, successes := 0, failures := 0 }
  | .closed => { cb with state := .closed, successes := 0, failures := 0 }

/-- `addToRollingWindow`: drop entries older than `windowSize`, push the new
sample. -/
def addToRollingWindow (cfg : CBConfig) (now : Nat) (success : Bool)
    (w : List (Nat × Bool)) : List (Nat × Bool) :=
  w.filter (fun e => now - e.1 < cfg.windowSize) ++ [(now, success)]

structure WindowStats where
  total : Nat
  failures : Nat
deriving DecidableEq

/-- `getRollingStats`: counts over the still-valid window entries
(`failures = total - successes` as in the source). -/
def rollingStats (cfg : CBConfig) (now : Nat) (w : List (Nat × Bool)) : WindowStats :=
  let valid := w.filter (fun e => now - e.1 < cfg.windowSize)
  let succ := (valid.filter (fun e => e.2)).length
  { total := valid.length, failures := valid.length - succ }

/-- `shouldTrip`: consecutive-failure threshold, else the percentage check
over the rolling window.  The JS float comparison
`(failures / total) * 100 >= errorThresholdPercentage` is modelled by the
exact rational comparison `failures * 100 ≥ pct * total`. -/
def shouldTrip (cfg : CBConfig) (now : Nat) (cb : CB) : Bool :=
  if cb.failures ≥ cfg.failureThreshold then true
  else
    let stats := rollingStats cfg now cb.rollingWindow
    if stats.total ≥ cfg.volumeThreshold then
      decide (stats.failures * 100 ≥ cfg.errorThresholdPercentage * stats.total)
    else false

/-- `onSuccess`. -/
def onSuccess (cfg : CBConfig) (now : Nat) (cb : CB) : CB :=
  let cb1 := { cb with failures := 0 }
  let cb2 := { cb1 with rollingWindow := addToRollingWindow cfg now true cb1.rollingWindow }
  match cb2.state with
  | .halfOpen =>
    let cb3 := { cb2 with successes := cb2.successes + 1 }
    if cb3.successes ≥ cfg.successThreshold then transitionTo cfg now cb3 .closed else cb3
  | .closed => { cb2 with failures := 0 }
  | .opened => cb2

/-- `onFailure`. -/
def onFailure (cfg : CBConfig) (now : Nat) (cb : CB) : CB :=
  let cb1 := { cb with successes := 0, failures := cb.failures + 1 }
  let cb2 := { cb1 with rollingWindow := addToRollingWindow cfg now false cb1.rollingWindow }
  match cb2.state with
  | .halfOpen => transitionTo cfg now cb2 .opened
  | .closed => if shouldTrip cfg now cb2 then transitionTo cfg now cb2 .opened else cb2
  | .opened => cb2

/-- JS error codes are either numbers (JSON-RPC codes) or strings (like
`CIRCUIT_OPEN` or Node network codes). -/
inductive ErrCode where
  | num (n : Int)
  | str (s : String)
deriving DecidableEq

/-- A thrown JS `Error` as the pipeline observes it. -/
structure JsError where
  message : String
  code : Option ErrCode
  dataField : Option Json

/-- The distinguished breaker-open error thrown by `execute`. -/
def circuitOpenError (name : String) : JsError :=
  { message := "Circuit breaker is OPEN for " ++ name
    code := some (.str "CIRCUIT_OPEN"), dataField := Option.none }

/-- One step of `CircuitBreaker.execute`: the wrapped async function is
summarised by its outcome `fn` (a timeout of `executeWithTimeout` is one of
the `.error` outcomes).  Returns the new breaker, the call result, and
whether the wrapped function was invoked at all. -/
def CB.execute (cfg : CBConfig) (name : String) (cb : CB) (now : Nat)
    (fn : Except JsError Json) : CB × Except JsError Json × Bool :=
  let cb1 := if cb.state = .opened ∧ now ≥ cb.nextAttempt
             then transitionTo cfg now cb .halfOpen else cb
  if cb1.state = .opened then (cb1, .error (circuitOpenError name), false)
  else
    match fn with
    | .ok v => (onSuccess cfg now cb1, .ok v, true)
    | .error e => (onFailure cfg now cb1, .error e, true)

/-! ## RPC handler, non-cacheable path (src/handlers/rpcHandler.js) -/

/-- A client-visible JSON-RPC error object. -/
structure RpcErrorObj where
  code : ErrCode
  message : String
  dataField : Option Json

/-- A client-visible JSON-RPC response. -/
inductive RpcResponse where
  | result (r : Json) (id : Json) (cached : Bool)
  | failure (e : RpcErrorObj) (id : Json)

structure RpcRequest where
  jsonrpc : String
  method : String
  params : Option (List Json)
  id : Json

/-- JS `error.code || -32603` (numeric 0 and empty string are falsy). -/
def jsErrCodeOr (c : Option ErrCode) (d : Int) : ErrCode :=
  match c with
  | some (.num n) => if n = 0 then .num d else .num n
  | some (.str s) => if s = "" then .num d else .str s
  | Option.none => .num d

/-- JS `s || d` on strings. -/
def jsStrOr (s d : String) : String := if s = "" then d else s

/-- The body of the `!shouldCache` branch of `handleRequest`: call upstream
through the breaker; on success wrap the result, on error build
`{code: error.code || -32603, message: error.message || 'Internal error',
data: error.data}`. -/
def handleUncacheable (cbCfg : CBConfig) (name : String) (cb : CB) (now : Nat)
    (id : Json) (upstream : Except JsError Json) : RpcResponse × CB :=
  let r := CB.execute cbCfg name cb now upstream
  match r.2.1 with
  | .ok v => (.result v id false, r.1)
  | .error e =>
    (.failure { code := jsErrCodeOr e.code (-32603)
                message := jsStrOr e.message "Internal error"
                dataField := e.dataField } id, r.1)

/-- `handleRequest` up to and including the non-cacheable branch.  The
cacheable continuation is outside this definition's scope and is modelled
as `none`. -/
def handleRequestUncached (cfg : CacheConfig) (cbCfg : CBConfig) (name : String)
    (cb : CB) (now : Nat) (req : RpcRequest) (upstream : Except JsError Json) :
    Option (RpcResponse × CB) :=
  if req.jsonrpc ≠ "2.0" then
    some (.failure { code := .num (-32600), message := "Invalid Request",
                     dataField := Option.none }
            (if jsTruthy req.id then req.id else .null), cb)
  else if shouldCacheMethod cfg req.method req.params then Option.none
  else some (handleUncacheable cbCfg name cb now req.id upstream)

/-! ## JSON parsing (model of `JSON.parse`) -/

def hexVal (c : Char) : Option Nat :=
  if '0' ≤ c ∧ c ≤ '9' then some (c.toNat - 48)
  else if 'a' ≤ c ∧ c ≤ 'f' then some (c.toNat - 87)
  else if 'A' ≤ c ∧ c ≤ 'F' then some (c.toNat - 55)
  else none

/-- Scan a JSON string literal body (after the opening quote) up to and over
the closing quote, decoding escapes; returns the content and the remainder. -/
def scanString : List Char → Option (List Char × List Char)
  | [] => none
  | c :: cs =>
    if c = '"' then some ([], cs)
    else if c = '\\' then
      match cs with
      | [] => none
      | e :: cs1 =>
        if e = '"' then (scanString cs1).map (fun p => ('"' :: p.1, p.2))
        else if e = '\\' then (scanString cs1).map (fun p => ('\\' :: p.1, p.2))
        else if e = '/' then (scanString cs1).map (fun p => ('/' :: p.1, p.2))
        else if e = 'b' then (scanString cs1).map (fun p => ('\x08' :: p.1, p.2))
        else if e = 't' then (scanString cs1).map (fun p => ('\t' :: p.1, p.2))
        else if e = 'n' then (scanString cs1).map (fun p => ('\n' :: p.1, p.2))
        else if e = 'f' then (scanString cs1).map (fun p => ('\x0c' :: p.1, p.2))
        else if e = 'r' then (scanString cs1).map (fun p => ('\x0d' :: p.1, p.2))
        else if e = 'u' then
          match cs1 with
          | h1 :: h2 :: h3 :: h4 :: cs2 =>
            match hexVal h1, hexVal h2, hexVal h3, hexVal h4 with
            | some a, some b, some c3, some d =>
              (scanString cs2).map
                (fun p => (Char.ofNat (((a * 16 + b) * 16 + c3) * 16 + d) :: p.1, p.2))
            | _, _, _, _ => none
          | _ => none
        else none
    else (scanString cs).map (fun p => (c :: p.1, p.2))

/-- Longest prefix of decimal digits. -/
def takeDigits : List Char → List Char × List Char
  | [] => ([], [])
  | c :: cs =>
    if c.isDigit then
      let p := takeDigits cs
      (c :: p.1, p.2)
    else ([], c :: cs)

def digitsVal (cs : List Char) : Nat :=
  cs.foldl (fun a c => a * 10 + (c.toNat - 48)) 0

/-- Parse a JSON integer numeral (fractional and exponent parts of the JSON
number grammar are not modelled; the program only round-trips values that
`stringify` rendered with integral numerals). -/
def parseNumToken (neg : Bool) (cs : List Char) : Option (Json × List Char) :=
  let p := takeDigits cs
  if p.1 = [] then none
  else some (.num (if neg then -(digitsVal p.1 : Int) else (digitsVal p.1 : Int)), p.2)

mutual
/-- Recursive-descent JSON value parsing, fuel-indexed. -/
def parseVal : Nat → List Char → Option (Json × List Char)
  | 0, _ => none
  | _ + 1, [] => none
  | fuel + 1, c :: cs =>
    if c = 'n' then
      match cs with
      | 'u' :: 'l' :: 'l' :: r => some (.null, r)
      | _ => none
    else if c = 't' then
      match cs with
      | 'r' :: 'u' :: 'e' :: r => some (.bool true, r)
      | _ => none
    else if c = 'f' then
      match cs with
      | 'a' :: 'l' :: 's' :: 'e' :: r => some (.bool false, r)
      | _ => none
    else if c = '"' then (scanString cs).map (fun p => (.str ⟨p.1⟩, p.2))
    else if c = '-' then parseNumToken true cs
    else if c.isDigit then parseNumToken false (c :: cs)
    else if c = '[' then
      match cs with
      | ']' :: r => some (.arr [], r)
      | _ => (parseItems fuel cs).map (fun p => (.arr p.1, p.2))
    else if c = '\x7b' then
      match cs with
      | '\x7d' :: r => some (.obj [], r)
      | _ => (parseFields fuel cs).map (fun p => (.obj p.1, p.2))
    else none

/-- Comma-separated values up to the closing bracket. -/
def parseItems : Nat → List Char → Option (List Json × List Char)
  | 0, _ => none
  | fuel + 1, cs => do
    let (v, r) ← parseVal fuel cs
    match r with
    | ',' :: r1 =>
      let (vs, r2) ← parseItems fuel r1
      pure (v :: vs, r2)
    | ']' :: r1 => pure ([v], r1)
    | _ => none

/-- Comma-separated `"key":value` pairs up to the closing brace. -/
def parseFields : Nat → List Char → Option (List (String × Json) × List Char)
  | 0, _ => none
  | fuel + 1, cs =>
    match cs with
    | '"' :: cs1 => do
      let (k, r) ← scanString cs1
      match r with
      | ':' :: r1 => do
        let (v, r2) ← parseVal fuel r1
        match r2 with
        | ',' :: r3 =>
          let (fs, r4) ← parseFields fuel r3
          pure ((⟨k⟩, v) :: fs, r4)
        | '\x7d' :: r3 => pure ([(⟨k⟩, v)], r3)
        | _ => none
      | _ => none
    | _ => none
end

/-- `JSON.parse`: the whole input must be consumed; `none` models a thrown
`SyntaxError`. -/
def Json.parse (s : String) : Option Json :=
  match parseVal (s.length + 1) s.data with
  | some (v, []) => some v
  | _ => none

/-- Characters that may legitimately follow a complete JSON value inside a
rendering: end of input, a separating comma, or a closing bracket. -/
def stopOk : List Char → Bool
  | [] => true
  | c :: _ => c = ',' || c = ']' || c = '\x7d'

mutual
/-- Fuel needed by `parseVal` on the `stringify` rendering of a value. -/
def cost : Json → Nat
  | .null => 1
  | .bool _ => 1
  | .num _ => 1
  | .str _ => 1
  | .arr items => 1 + costItems items
  | .obj fields => 1 + costFields fields

def costItems : List Json → Nat
  | [] => 0
  | v :: vs => 1 + max (cost v) (costItems vs)

def costFields : List (String × Json) → Nat
  | [] => 0
  | (_, v) :: fs => 1 + max (cost v) (costFields fs)
end

/-! ## Cache store (src/cache/inMemoryCache.js and src/cache/cacheManager.js) -/

structure MemEntry where
  value : String
  expiresAt : Option Nat   -- absolute time in ms; `none` = no TTL

/-- The in-memory backend: a keyed store.  The `setTimeout` expiry timer of
the source is modelled by treating an entry as deleted from its deadline on. -/
abbrev MemStore := List (String × MemEntry)

/-- `InMemoryCache.set(key, value, {EX: ttl})` at time `now` (ms): replaces
any previous entry and re-arms the expiry timer (`EX` is in seconds). -/
def memSet (st : MemStore) (k v : String) (ttlSec : Option Nat) (now : Nat) : MemStore :=
  (k, { value := v, expiresAt := ttlSec.map (fun t => now + t * 1000) })
    :: st.filter (fun e => e.1 ≠ k)

/-- `InMemoryCache.get(key)` at time `now`; expired entries have been deleted
by their timer. -/
def memGetRaw (st : MemStore) (k : String) (now : Nat) : Option String :=
  match st.find? (fun e => e.1 = k) with
  | some e =>
    match e.2.expiresAt with
    | Option.none => some e.2.value
    | some t => if now < t then some e.2.value else Option.none
  | Option.none => Option.none

/-- `set(key, value, {NX: true, ...})` (also `InMemoryCache.setNX`): writes
only when the key is absent. -/
def memSetNX (st : MemStore) (k v : String) (ttlSec : Option Nat) (now : Nat) : MemStore :=
  if (memGetRaw st k now).isSome then st else memSet st k v ttlSec now

/-- `CacheManager.set(key, value, ttl)`: `JSON.stringify` the value, store it
(permanent when `ttl` is `null`); `if (!key)` writes nothing. -/
def cmSet (st : MemStore) (key : String) (v : Json) (ttl : Option Nat) (now : Nat) : MemStore :=
  if key = "" then st else memSet st key (Json.stringify v) ttl now

/-- `CacheManager.get(key)`: raw read, then `JSON.parse`; a falsy raw value
returns `null`, and a `SyntaxError` in `JSON.parse` is caught and also yields
`null`.  The JS value `null` is `Json.null`. -/
def cmGet (st : MemStore) (key : String) (now : Nat) : Json :=
  if key = "" then .null
  else
    match memGetRaw st key now with
    | some s =>
      if s = "" then .null
      else
        match Json.parse s with
        | some j => j
        | Option.none => .null
    | Option.none => .null

structure StaleRead where
  value : Json
  isStale : Bool
  reads : List String   -- store keys read, in order

/-- The stale-sibling probe of `getWithStale` (only reached after the fresh
lookup came back falsy). -/
def staleProbe (swr : Bool) (st : MemStore) (key : String) (now : Nat) : StaleRead :=
  if swr then
    match memGetRaw st ("stale:" ++ key) now with
    | some s =>
      if s = "" then { value := .null, isStale := false, reads := [key, "stale:" ++ key] }
      else
        match Json.parse s with
        | some j => { value := j, isStale := true, reads := [key, "stale:" ++ key] }
        | Option.none => { value := .null, isStale := false, reads := [key, "stale:" ++ key] }
    | Option.none => { value := .null, isStale := false, reads := [key, "stale:" ++ key] }
  else { value := .null, isStale := false, reads := [key] }

/-- `CacheManager.getWithStale(key)`: fresh read first; only when it is falsy
and stale-while-revalidate is enabled is `stale:<key>` consulted.  A parse
error anywhere lands in the catch block, which returns
`{value: null, isStale: false}`. -/
def getWithStale (swr : Bool) (st : MemStore) (key : String) (now : Nat) : StaleRead :=
  if key = "" then { value := .null, isStale := false, reads := [] }
  else
    match memGetRaw st key now with
    | some s =>
      if s = "" then staleProbe swr st key now
      else
        match Json.parse s with
        | some j => { value := j, isStale := false, reads := [key] }
        | Option.none => { value := .null, isStale := false, reads := [key] }
    | Option.none => staleProbe swr st key now

/-! ## Request coalescer (src/cache/requestCoalescer.js) -/

/-- In-flight map: fingerprint to the ids of the coalesced subscribers of its
shared promise, in arrival order. -/
structure CoalescerState where
  inFlight : List (String × List Nat)

/-- `RequestCoalescer.cleanup(key)`: delete the entry when present. -/
def coCleanup (key : String) (st : CoalescerState) : CoalescerState :=
  { inFlight := st.inFlight.filter (fun e => e.1 ≠ key) }

/-- How the shared fetch for a key can complete: producer resolution,
producer rejection, or the watchdog timeout of `createTimedFetch`. -/
inductive CoExit where
  | success
  | failure
  | timeout
deriving DecidableEq

/-- A continuation attached to the shared promise: the owner (the `getOrFetch`
call that installed the map entry and whose `finally` runs `cleanup`), or a
coalesced subscriber awaiting the stored promise. -/
inductive CoReaction where
  | owner
  | subscriber (i : Nat)
deriving DecidableEq

inductive CoEvent where
  | entryRemoved (key : String)
  | subscriberNotified (i : Nat) (key : String)
deriving DecidableEq

/-- Resuming one continuation after the shared promise settled.  The owner's
resume runs `finally { this.cleanup(key) }` before control leaves
`getOrFetch`; a subscriber's resume only observes the outcome.  The events
emitted do not depend on the exit kind: the `finally` clause runs on
resolution, rejection and timeout alike. -/
def runReaction (key : String) (_ex : CoExit) (st : CoalescerState) :
    CoReaction → CoalescerState × List CoEvent
  | .owner => (coCleanup key st, [CoEvent.entryRemoved key])
  | .subscriber i => (st, [CoEvent.subscriberNotified i key])

def runReactions (key : String) (ex : CoExit) :
    CoalescerState → List CoReaction → CoalescerState × List CoEvent
  | st, [] => (st, [])
  | st, r :: rs =>
    let p := runReaction key ex st r
    let q := runReactions key ex p.1 rs
    (q.1, p.2 ++ q.2)

/-- Settlement of the shared promise for `key`.  Promise reactions run in
registration order, and the owner registered its continuation (when it
awaited `fetchPromise` right after storing it in the map) before any
coalesced subscriber could attach to the stored promise. -/
def settleShared (st : CoalescerState) (key : String) (subs : List Nat)
    (ex : CoExit) : CoalescerState × List CoEvent :=
  runReactions key ex st (CoReaction.owner :: subs.map CoReaction.subscriber)

/-! ## Pipeline producer and batch handler (src/handlers/rpcHandler.js) -/

inductive LockEvent where
  | tryAcquire (ok : Bool)
  | release
  | cacheWrite (key : String)
deriving DecidableEq

/-- `fetchWithCircuitBreaker` as seen from the lock discipline: the upstream
outcome is `fetch`; a non-`null` result is written to the cache under the
fingerprint. -/
def fetchAndCache (fp : String) (fetch : Except JsError Json) :
    Except JsError Json × List LockEvent :=
  match fetch with
  | .ok v =>
    (.ok v, match v with
            | .null => []
            | _ => [LockEvent.cacheWrite fp])
  | .error e => (.error e, [])

/-- The `try { doubleCheck; fetch } finally { if (lockAcquired) release }`
block of the coalescer producer. -/
def criticalSection (fp : String) (acquired : Bool) (doubleCheck : Option Json)
    (fetch : Except JsError Json) : Except JsError Json × List LockEvent :=
  let body :=
    match doubleCheck with
    | some v => (Except.ok v, [])
    | Option.none => fetchAndCache fp fetch
  (body.1, body.2 ++ if acquired then [LockEvent.release] else [])

/-- The producer closure passed to `requestCoalescer.getOrFetch` in
`handleRequest`.  `acquired` is the outcome of `acquireLock`; `recheck` is
the cache re-read after a failed acquisition; `doubleCheck` is the cache
re-read inside the critical section; `fetch` is the upstream outcome. -/
def coalescerProducer (fp : String) (lockEnabled acquired : Bool)
    (recheck doubleCheck : Option Json) (fetch : Except JsError Json) :
    Except JsError Json × List LockEvent :=
  if lockEnabled then
    let tail :=
      if acquired then criticalSection fp true doubleCheck fetch
      else
        match recheck with
        | some v => (Except.ok v, [])
        | Option.none => criticalSection fp false doubleCheck fetch
    (tail.1, LockEvent.tryAcquire acquired :: tail.2)
  else fetchAndCache fp fetch

structure BatchError where
  code : Int
  message : String
  id : Json

/-- `handleBatchRequest(requests)`: a non-array body or an empty array gets a
single `-32600` error object with `id: null`; otherwise every element is
passed to `handleRequest` and `Promise.all` returns the responses in request
order. -/
inductive BatchOutcome (ρ : Type) where
  | single (e : BatchError)
  | list (rs : List ρ)

def handleBatchRequest {ρ : Type} (handle : RpcRequest → ρ)
    (body : Option (List RpcRequest)) : BatchOutcome ρ :=
  match body with
  | Option.none => .single { code := -32600, message := "Invalid Request", id := .null }
  | some [] => .single { code := -32600, message := "Invalid Request", id := .null }
  | some reqs => .list (reqs.map handle)

/-! ## Upstream client with failover (src/services/ethereum.js, multi-URL) -/

/-- An axios-style error as `callRPC` catches it. -/
structure NetError where
  message : String
  code : Option String             -- Node error code, e.g. ECONNREFUSED
  responseMsg : Option (Option String)  -- some: server responded; inner value is `data.error?.message`
  requestMade : Bool               -- request sent but no response received

/-- One HTTP attempt: a 2xx response with a result, a 2xx response carrying
an RPC error body (which `callRPC` turns into a thrown
`Error('RPC Error: ...')`), or a network/transport error. -/
inductive AttemptResult where
  | result (v : Json)
  | rpcError (msg : String)
  | netError (e : NetError)

/-- The plain `Error` thrown for an RPC error body: it has no `code`, no
`response` and no `request` field. -/
def rpcErrorToError (msg : String) : NetError :=
  { message := "RPC Error: " ++ msg, code := Option.none
    responseMsg := Option.none, requestMade := false }

/-- The error the `catch` block records for one attempt (`lastError = error`):
an RPC error body is the thrown `Error('RPC Error: ...')`, a transport error
is kept as caught, and a successful attempt records none. -/
def attemptError : AttemptResult → Option NetError
  | .result _ => Option.none
  | .rpcError msg => some (rpcErrorToError msg)
  | .netError e => some e

/-- `getErrorMessage(error)`. -/
def getErrorMessage (e : NetError) : String :=
  match e.responseMsg with
  | some inner => jsStrOr (inner.getD "") e.message
  | Option.none =>
    if e.requestMade then
      "No response (" ++ (jsStrOr ((e.code).getD "") "timeout") ++ ")"
    else jsStrOr e.message "Unknown error"

/-- JS `hay.includes(needle)`. -/
def includesFrom (needle : List Char) : List Char → Bool
  | [] => needle.isPrefixOf []
  | c :: cs => needle.isPrefixOf (c :: cs) || includesFrom needle cs

/-- `shouldRetryWithSameUrl(error)`. -/
def shouldRetryWithSameUrl (e : NetError) : Bool :=
  if e.code = some "ECONNABORTED" ∨ e.code = some "ETIMEDOUT" then true
  else if includesFrom "RPC Error:".data e.message.data then false
  else if e.code = some "ENOTFOUND" ∨ e.code = some "ECONNREFUSED" then false
  else false

/-- The per-URL state and attempt oracle for one `callRPC` invocation:
`outcomes r` is what the `r`-th attempt against this URL would produce. -/
structure UrlTrial where
  healthy : Bool
  outcomes : Nat → AttemptResult

/-- The inner retry loop for one URL: up to `fuel` attempts (initially
`maxRetriesPerUrl`); retry the same URL only when
`shouldRetryWithSameUrl` holds and a retry budget remains
(`retry < maxRetriesPerUrl - 1`), else break to the next URL.  Returns
(attempts made, success value, error of the last attempt). -/
def tryUrl (outcomes : Nat → AttemptResult) (retry : Nat) :
    Nat → Nat × Option Json × Option NetError
  | 0 => (0, Option.none, Option.none)
  | fuel + 1 =>
    let failStep := fun (e : NetError) =>
      if shouldRetryWithSameUrl e ∧ fuel ≠ 0 then
        let p := tryUrl outcomes (retry + 1) fuel
        (p.1 + 1, p.2.1, some ((p.2.2).getD e))
      else (1, Option.none, some e)
    match outcomes retry with
    | .result v => (1, some v, Option.none)
    | .rpcError msg => failStep (rpcErrorToError msg)
    | .netError e => failStep e

/-- The outer URL loop of `callRPC`.  An unhealthy URL is skipped only when
it is not the last candidate (the source condition
`rpcUrls.length > 1 && urlIndex < rpcUrls.length - 1` is exactly "not the
last element").  Accumulates the attempt count and the last error. -/
def callLoop (maxR : Nat) (lastErr : Option NetError) :
    List UrlTrial → Nat × Option Json × Option NetError
  | [] => (0, Option.none, lastErr)
  | u :: rest =>
    if !u.healthy && !rest.isEmpty then callLoop maxR lastErr rest
    else
      let t := tryUrl u.outcomes 0 maxR
      match t.2.1 with
      | some v => (t.1, some v, t.2.2)
      | Option.none =>
        let q := callLoop maxR ((t.2.2).orElse (fun _ => lastErr)) rest
        (t.1 + q.1, q.2.1, q.2.2)

inductive CallResult where
  | ok (attempts : Nat) (v : Json)
  | failed (attempts : Nat) (msg : String)
  | crashed (attempts : Nat)   -- JS would fault reading a field of `null`

def CallResult.attempts : CallResult → Nat
  | .ok n _ => n
  | .failed n _ => n
  | .crashed n => n

/-- `EthereumService.callRPC` for one request: walk the URLs; when everything
fails, throw `new Error('All RPC endpoints failed: ' + getErrorMessage(lastError))`. -/
def callRPC (maxR : Nat) (urls : List UrlTrial) : CallResult :=
  let r := callLoop maxR Option.none urls
  match r.2.1 with
  | some v => .ok r.1 v
  | Option.none =>
    match r.2.2 with
    | some e => .failed r.1 ("All RPC endpoints failed: " ++ getErrorMessage e)
    | Option.none => .crashed r.1

/-! # Theorems -/

/-! ## C1: circuit-breaker transition relation -/

theorem shouldTrip_eq (cfg : CBConfig) (now : Nat) (st : CBState) (f s na : Nat)
    (w : List (Nat × Bool)) :
    shouldTrip cfg now ⟨st, f, s, na, w⟩
      = (decide (f ≥ cfg.failureThreshold) ||
         (decide ((rollingStats cfg now w).total ≥ cfg.volumeThreshold) &&
          decide ((rollingStats cfg now w).failures * 100
                    ≥ cfg.errorThresholdPercentage * (rollingStats cfg now w).total))) := by
  by_cases h1 : f ≥ cfg.failureThreshold
  · simp [shouldTrip, h1]
  · by_cases h2 : (rollingStats cfg now w).total ≥ cfg.volumeThreshold
    · simp [shouldTrip, h1, h2]
    · simp [shouldTrip, h1, h2]

/-- C1: the circuit breaker, stepped by the outcome of each call, follows
exactly the specified transition relation.  In `CLOSED` a failure trips to
`OPEN` iff the consecutive failures reach `failureThreshold` or the rolling
window holds at least `volumeThreshold` samples with failure ratio at least
`errorThresholdPercentage` (a success keeps it `CLOSED`); in `OPEN` every
call is rejected with the distinguished `CIRCUIT_OPEN` error without invoking
the wrapped function, except that a call at or after `nextAttempt` first
moves the breaker to `HALF_OPEN`; in `HALF_OPEN` a failure returns it to
`OPEN` with `nextAttempt = now + resetTimeout` and a success closes it exactly
when `successThreshold` consecutive successes are reached.  No other
transitions occur. -/
theorem c1_circuit_breaker_transitions (cfg : CBConfig) (name : String) (cb : CB)
    (now : Nat) (fn : Except JsError Json) :
    (cb.state = .opened → now < cb.nextAttempt →
      CB.execute cfg name cb now fn = (cb, .error (circuitOpenError name), false)) ∧
    (cb.state = .opened → cb.nextAttempt ≤ now →
      CB.execute cfg name cb now fn
        = CB.execute cfg name (transitionTo cfg now cb .halfOpen) now fn ∧
      (transitionTo cfg now cb .halfOpen).state = .halfOpen) ∧
    (cb.state = .closed → ∀ v, fn = .ok v →
      (CB.execute cfg name cb now fn).1.state = .closed ∧
      (CB.execute cfg name cb now fn).2 = (.ok v, true)) ∧
    (cb.state = .closed → ∀ e, fn = .error e →
      (CB.execute cfg name cb now fn).2 = (.error e, true) ∧
      (CB.execute cfg name cb now fn).1.state
        = (if cb.failures + 1 ≥ cfg.failureThreshold
              ∨ ((rollingStats cfg now (addToRollingWindow cfg now false cb.rollingWindow)).total
                    ≥ cfg.volumeThreshold
                  ∧ (rollingStats cfg now (addToRollingWindow cfg now false cb.rollingWindow)).failures * 100
                    ≥ cfg.errorThresholdPercentage
                      * (rollingStats cfg now (addToRollingWindow cfg now false cb.rollingWindow)).total)
           then .opened else .closed)) ∧
    (cb.state = .halfOpen → ∀ e, fn = .error e →
      (CB.execute cfg name cb now fn).1.state = .opened ∧
      (CB.execute cfg name cb now fn).1.nextAttempt = now + cfg.resetTimeout ∧
      (CB.execute cfg name cb now fn).2 = (.error e, true)) ∧
    (cb.state = .halfOpen → ∀ v, fn = .ok v →
      (CB.execute cfg name cb now fn).1.state
        = (if cb.successes + 1 ≥ cfg.successThreshold then .closed else .halfOpen) ∧
      (CB.execute cfg name cb now fn).2 = (.ok v, true)) := by
  obtain ⟨cst, cf, cs, cna, cw⟩ := cb
  refine ⟨?_, ?_, ?_, ?_, ?_, ?_⟩
  · intro h1 h2
    simp only at h1
    subst h1
    simp [CB.execute, Nat.not_le.mpr h2]
  · intro h1 h2
    simp only at h1
    subst h1
    refine ⟨?_, rfl⟩
    simp [CB.execute, h2, transitionTo]
  · intro h1 v hv
    simp only at h1
    subst h1
    subst hv
    constructor
    · simp [CB.execute, onSuccess]
    · simp [CB.execute]
  · intro h1 e he
    simp only at h1
    subst h1
    subst he
    constructor
    · simp [CB.execute]
    · simp only [CB.execute, reduceCtorEq, false_and, if_false, onFailure]
      rw [shouldTrip_eq]
      by_cases hA : cf + 1 ≥ cfg.failureThreshold <;>
        by_cases hB : (rollingStats cfg now (addToRollingWindow cfg now false cw)).total
            ≥ cfg.volumeThreshold <;>
        by_cases hC : (rollingStats cfg now (addToRollingWindow cfg now false cw)).failures * 100
            ≥ cfg.errorThresholdPercentage
              * (rollingStats cfg now (addToRollingWindow cfg now false cw)).total <;>
        simp [hA, hB, hC, transitionTo]
  · intro h1 e he
    simp only at h1
    subst h1
    subst he
    refine ⟨?_, ?_, ?_⟩ <;> simp [CB.execute, onFailure, transitionTo]
  · intro h1 v hv
    simp only at h1
    subst h1
    subst hv
    constructor
    · simp only [CB.execute, reduceCtorEq, false_and, if_false, onSuccess]
      by_cases hs : cs + 1 ≥ cfg.successThreshold
      · simp [hs, transitionTo]
      · simp [hs]
    · simp [CB.execute]

/-- Witness for C1: with the breaker `OPEN` and `now` before `nextAttempt`,
a call short-circuits, returning the breaker-open error without invoking the
wrapped function or changing the breaker. -/
theorem c1_circuit_breaker_transitions_witness :
    CB.execute ⟨5, 2, 60000, 10, 50, 10000⟩ "upstream-rpc"
        ⟨.opened, 5, 0, 100, []⟩ 0 (.ok .null)
      = (⟨.opened, 5, 0, 100, []⟩,
          .error (circuitOpenError "upstream-rpc"), false) :=
  (c1_circuit_breaker_transitions ⟨5, 2, 60000, 10, 50, 10000⟩ "upstream-rpc"
      ⟨.opened, 5, 0, 100, []⟩ 0 (.ok .null)).1 rfl (by decide)

/-! ## C3: breaker-open error leaks as the client-visible error code -/

/-- C3 (code bug): for a non-cacheable method with the breaker `OPEN`, the
source builds the response error code as `error.code || -32603`, and the
breaker-open error carries `code = 'CIRCUIT_OPEN'`, a truthy string — so the
client receives `'CIRCUIT_OPEN'`, not `-32603`, contradicting the claim that
the breaker-open signal never appears in a client-visible response. -/
theorem c3_circuit_open_code_leak :
    handleRequestUncached defaultCacheConfig ⟨5, 2, 60000, 10, 50, 10000⟩ "upstream-rpc"
      ⟨.opened, 5, 0, 60000, []⟩ 0
      ⟨"2.0", "eth_sendRawTransaction", some [.str "0xdeadbeef"], .num 1⟩
      (.ok .null)
      = some (.failure ⟨.str "CIRCUIT_OPEN", "Circuit breaker is OPEN for upstream-rpc",
                        Option.none⟩ (.num 1),
              ⟨.opened, 5, 0, 60000, []⟩) ∧
    ErrCode.str "CIRCUIT_OPEN" ≠ ErrCode.num (-32603) :=
  ⟨rfl, by decide⟩

/-! ## C4: account-state TTL ignores the real block parameter -/

/-- C4 (code bug): `extractBlockNumber` reads `params[0]`, which for
`eth_getBalance` is the account address; `parseInt(address, 16)` yields a
number far above `permanentCacheHeight`, so a `latest` query gets TTL 300
instead of the 15 seconds the claim (and the repository changelog) state. -/
theorem c4_account_state_ttl_bug :
    getMethodTTL defaultCacheConfig "eth_getBalance"
        (some [.str "0x407d73d8a49eeb85d32cf465507dd71d507100c1", .str "latest"])
      = some 300 ∧
    getMethodTTL defaultCacheConfig "eth_getBalance"
        (some [.str "0x407d73d8a49eeb85d32cf465507dd71d507100c1", .str "latest"])
      ≠ some 15 := by
  constructor
  · rfl
  · decide

/-! ## C8: the method policy is a pure function with the stated fingerprint -/

/-- C8: `(method, params) ↦ (cacheable, ttl, fingerprint)` is deterministic —
equal inputs under a fixed configuration give equal triples — and the
fingerprint is `method + ":" + JSON.stringify(params || [])`, the compact
stringification of the params (or of the empty array when absent). -/
theorem c8_policy_determinism (cfg : CacheConfig) (m m2 : String)
    (p p2 : Option (List Json)) (hm : m = m2) (hp : p = p2) :
    methodPolicyTriple cfg m p = methodPolicyTriple cfg m2 p2 ∧
    (methodPolicyTriple cfg m p).2.2 = m ++ ":" ++ Json.stringify (.arr (p.getD [])) := by
  subst hm; subst hp
  exact ⟨rfl, rfl⟩

theorem c8_policy_determinism_witness :
    methodPolicyTriple defaultCacheConfig "eth_chainId" (some [])
      = methodPolicyTriple defaultCacheConfig "eth_chainId" (some []) ∧
    (methodPolicyTriple defaultCacheConfig "eth_chainId" (some [])).2.2
      = "eth_chainId" ++ ":" ++ Json.stringify (.arr ((some ([] : List Json)).getD [])) :=
  c8_policy_determinism defaultCacheConfig "eth_chainId" "eth_chainId"
    (some []) (some []) rfl rfl

/-! ## C9: batch handling -/

/-- C9: a non-empty batch is answered element-wise in order by the
single-request pipeline; the empty array and non-array input get one
`-32600` error object with `id` `null`. -/
theorem c9_batch_shape {ρ : Type} (handle : RpcRequest → ρ) (reqs : List RpcRequest)
    (hne : reqs ≠ []) :
    (handleBatchRequest handle (some reqs) = .list (reqs.map handle) ∧
      (reqs.map handle).length = reqs.length ∧
      ∀ i (hi : i < reqs.length),
        (reqs.map handle).get ⟨i, by simpa using hi⟩ = handle (reqs.get ⟨i, hi⟩)) ∧
    handleBatchRequest handle (some ([] : List RpcRequest))
      = .single { code := -32600, message := "Invalid Request", id := .null } ∧
    handleBatchRequest handle (Option.none : Option (List RpcRequest))
      = .single { code := -32600, message := "Invalid Request", id := .null } := by
  refine ⟨⟨?_, ?_, ?_⟩, rfl, rfl⟩
  · cases reqs with
    | nil => exact absurd rfl hne
    | cons a l => rfl
  · simp
  · intro i hi
    simp [List.get_eq_getElem, List.getElem_map]

theorem c9_batch_shape_witness :
    handleBatchRequest (fun r => r.method)
        (some [RpcRequest.mk "2.0" "eth_blockNumber" Option.none (.num 1)])
      = .list ["eth_blockNumber"] :=
  (c9_batch_shape (fun r => r.method) [RpcRequest.mk "2.0" "eth_blockNumber" Option.none (.num 1)]
    (by simp)).1.1

/-! ## C2: coalescer cleanup precedes notification -/

theorem runReactions_subscribers (key : String) (ex : CoExit) (st : CoalescerState)
    (subs : List Nat) :
    runReactions key ex st (subs.map CoReaction.subscriber)
      = (st, subs.map (fun i => CoEvent.subscriberNotified i key)) := by
  induction subs with
  | nil => rfl
  | cons a l ih => simp [runReactions, runReaction, ih]

theorem lookup_filter_ne_key (l : List (String × List Nat)) (key : String) :
    (l.filter (fun e => e.1 ≠ key)).lookup key = Option.none := by
  induction l with
  | nil => rfl
  | cons a l ih =>
    obtain ⟨k, val⟩ := a
    by_cases h : k = key
    · rw [List.filter_cons_of_neg (by simpa using h)]
      exact ih
    · rw [List.filter_cons_of_pos (by simpa using h)]
      have hbeq : (key == k) = false := beq_eq_false_iff_ne.mpr (Ne.symm h)
      simp only [List.lookup, hbeq]
      exact ih

/-- C2: when the shared fetch for a fingerprint settles — by resolution,
rejection, or watchdog timeout alike — the in-flight map entry is removed
before any subscriber of the shared future is notified: the settlement trace
is exactly the removal event followed by the subscriber notifications in
order, and the map every subscriber observes no longer contains the key. -/
theorem c2_cleanup_before_notify (st : CoalescerState) (key : String)
    (subs : List Nat) (ex : CoExit) :
    settleShared st key subs ex
      = (coCleanup key st,
         CoEvent.entryRemoved key
           :: subs.map (fun i => CoEvent.subscriberNotified i key)) ∧
    (coCleanup key st).inFlight.lookup key = Option.none := by
  constructor
  · simp [settleShared, runReactions, runReaction, runReactions_subscribers]
  · exact lookup_filter_ne_key st.inFlight key

/-! ## C5: lock released exactly by its acquirer, value never rewritten -/

theorem ne_lock_key (fp : String) : fp ≠ "lock:" ++ fp := by
  intro h
  have hl := congrArg String.length h
  rw [String.length_append] at hl
  have h5 : "lock:".length = 5 := rfl
  omega

/-- C5: on every exit path of the coalescer producer — cached value found on
the post-acquisition-failure re-read, cached value found on the in-section
double-check, successful upstream fetch, and thrown fetch error alike — the
distributed lock is released if and only if this producer acquired it, at
most once; the producer never writes to the lock key (its only cache write
is the fingerprint itself), and the `SET NX` acquisition never overwrites an
existing lock value. -/
theorem c5_lock_release_iff_acquired (fp : String) (acquired : Bool)
    (recheck doubleCheck : Option Json) (fetch : Except JsError Json) :
    (LockEvent.release ∈ (coalescerProducer fp true acquired recheck doubleCheck fetch).2
      ↔ acquired = true) ∧
    ((coalescerProducer fp true acquired recheck doubleCheck fetch).2.count
        LockEvent.release ≤ 1) ∧
    (∀ k, LockEvent.cacheWrite k ∈ (coalescerProducer fp true acquired recheck doubleCheck fetch).2
      → k ≠ "lock:" ++ fp) ∧
    (∀ (st : MemStore) (v : String) (ttl : Option Nat) (now : Nat),
      (memGetRaw st ("lock:" ++ fp) now).isSome = true →
      memSetNX st ("lock:" ++ fp) v ttl now = st) := by
  refine ⟨?_, ?_, ?_, ?_⟩
  · cases acquired <;>
      rcases recheck with _ | rv <;>
        rcases doubleCheck with _ | dv <;>
          rcases fetch with e | v <;>
            first
            | (cases v <;> simp [coalescerProducer, criticalSection, fetchAndCache])
            | simp [coalescerProducer, criticalSection, fetchAndCache]
  · cases acquired <;>
      rcases recheck with _ | rv <;>
        rcases doubleCheck with _ | dv <;>
          rcases fetch with e | v <;>
            first
            | (cases v <;>
                simp [coalescerProducer, criticalSection, fetchAndCache, List.count_cons])
            | simp [coalescerProducer, criticalSection, fetchAndCache, List.count_cons]
  · intro k hk
    have hkfp : k = fp := by
      cases acquired <;>
        rcases recheck with _ | rv <;>
          rcases doubleCheck with _ | dv <;>
            rcases fetch with e | v <;>
              first
              | (cases v <;> simp_all [coalescerProducer, criticalSection, fetchAndCache])
              | simp_all [coalescerProducer, criticalSection, fetchAndCache]
    rw [hkfp]
    exact ne_lock_key fp
  · intro st v ttl now h
    simp [memSetNX, h]

/-! ## C6: failover attempt bound and exhaustion error -/

theorem tryUrl_attempts_le (outcomes : Nat → AttemptResult) :
    ∀ (fuel retry : Nat), (tryUrl outcomes retry fuel).1 ≤ fuel := by
  intro fuel
  induction fuel with
  | zero => intro retry; simp [tryUrl]
  | succ n ih =>
    intro retry
    simp only [tryUrl]
    cases outcomes retry with
    | result v => simp
    | rpcError msg =>
      simp only []
      split
      · have := ih (retry + 1)
        omega
      · omega
    | netError e =>
      simp only []
      split
      · have := ih (retry + 1)
        omega
      · omega

theorem tryUrl_produces (outcomes : Nat → AttemptResult) (retry fuel : Nat)
    (h : 1 ≤ fuel) :
    (tryUrl outcomes retry fuel).2.1.isSome = true
      ∨ (tryUrl outcomes retry fuel).2.2.isSome = true := by
  cases fuel with
  | zero => omega
  | succ n =>
    simp only [tryUrl]
    cases outcomes retry with
    | result v => left; rfl
    | rpcError msg =>
      simp only []
      split
      · right; rfl
      · right; rfl
    | netError e =>
      simp only []
      split
      · right; rfl
      · right; rfl

theorem callLoop_attempts_le (maxR : Nat) :
    ∀ (urls : List UrlTrial) (lastErr : Option NetError),
      (callLoop maxR lastErr urls).1 ≤ urls.length * maxR := by
  intro urls
  induction urls with
  | nil => intro lastErr; simp [callLoop]
  | cons u rest ih =>
    intro lastErr
    simp only [callLoop]
    split
    · calc (callLoop maxR lastErr rest).1 ≤ rest.length * maxR := ih lastErr
        _ ≤ (u :: rest).length * maxR := by
            simp only [List.length_cons]
            exact Nat.mul_le_mul_right maxR (Nat.le_succ _)
    · have ht := tryUrl_attempts_le u.outcomes maxR 0
      split
      · calc (tryUrl u.outcomes 0 maxR).1 ≤ maxR := ht
          _ ≤ (u :: rest).length * maxR := by
              simp only [List.length_cons]
              have : 1 * maxR ≤ (rest.length + 1) * maxR :=
                Nat.mul_le_mul_right maxR (by omega)
              omega
      · have hr := ih ((tryUrl u.outcomes 0 maxR).2.2.orElse (fun _ => lastErr))
        simp only [List.length_cons]
        have : (rest.length + 1) * maxR = rest.length * maxR + maxR := by ring
        omega

theorem callLoop_err_isSome (maxR : Nat) :
    ∀ (urls : List UrlTrial) (lastErr : Option NetError),
      lastErr.isSome = true →
      (callLoop maxR lastErr urls).2.1.isSome = true
        ∨ (callLoop maxR lastErr urls).2.2.isSome = true := by
  intro urls
  induction urls with
  | nil => intro lastErr h; right; simpa [callLoop] using h
  | cons u rest ih =>
    intro lastErr h
    simp only [callLoop]
    split
    · exact ih lastErr h
    · split
      · left; rfl
      · refine ih _ ?_
        rcases he : (tryUrl u.outcomes 0 maxR).2.2 with _ | e
        · simpa [he, Option.orElse] using h
        · simp [he, Option.orElse]

theorem callLoop_nonempty_produces (maxR : Nat) (hmax : 1 ≤ maxR) :
    ∀ (urls : List UrlTrial) (lastErr : Option NetError), urls ≠ [] →
      (callLoop maxR lastErr urls).2.1.isSome = true
        ∨ (callLoop maxR lastErr urls).2.2.isSome = true := by
  intro urls
  induction urls with
  | nil => intro lastErr h; exact absurd rfl h
  | cons u rest ih =>
    intro lastErr _
    simp only [callLoop]
    split
    · rename_i hskip
      refine ih lastErr ?_
      intro hrest
      rw [hrest] at hskip
      simp at hskip
    · split
      · left; rfl
      · rename_i hnone
        rcases tryUrl_produces u.outcomes 0 maxR hmax with hs | he
        · rw [hnone] at hs
          simp at hs
        · refine callLoop_err_isSome maxR rest _ ?_
          rcases hee : (tryUrl u.outcomes 0 maxR).2.2 with _ | e
          · rw [hee] at he
            simp at he
          · simp [hee, Option.orElse]

theorem tryUrl_last_err (outcomes : Nat → AttemptResult) :
    ∀ (fuel retry k : Nat) (e : NetError),
      tryUrl outcomes retry fuel = (k, Option.none, some e) →
      1 ≤ k ∧ k ≤ fuel ∧ attemptError (outcomes (retry + (k - 1))) = some e := by
  intro fuel
  induction fuel with
  | zero =>
    intro retry k e h
    simp [tryUrl] at h
  | succ n ih =>
    intro retry k e h
    simp only [tryUrl] at h
    rcases ho : outcomes retry with v | msg | e0
    all_goals rw [ho] at h
    · simp at h
    all_goals {
      simp only [] at h
      split at h
      · rename_i hcond
        simp only [Prod.mk.injEq] at h
        obtain ⟨hk, hp1, he⟩ := h
        rcases hp2 : (tryUrl outcomes (retry + 1) n).2.2 with _ | e2
        · rcases tryUrl_produces outcomes (retry + 1) n (by omega) with hs | hs
          · rw [hp1] at hs; simp at hs
          · rw [hp2] at hs; simp at hs
        · have htrip : tryUrl outcomes (retry + 1) n
              = ((tryUrl outcomes (retry + 1) n).1, (tryUrl outcomes (retry + 1) n).2.1,
                  (tryUrl outcomes (retry + 1) n).2.2) := rfl
          rw [hp1, hp2] at htrip
          obtain ⟨hk1, hk2, hke⟩ := ih (retry + 1) _ e2 htrip
          rw [hp2] at he
          simp only [Option.getD_some, Option.some.injEq] at he
          refine ⟨by omega, by omega, ?_⟩
          have harith : retry + (k - 1) = retry + 1 + ((tryUrl outcomes (retry + 1) n).1 - 1) := by
            omega
          rw [harith, hke, he]
      · simp only [Prod.mk.injEq] at h
        obtain ⟨hk, _, he⟩ := h
        refine ⟨by omega, by omega, ?_⟩
        have harith : retry + (k - 1) = retry := by omega
        rw [harith, ho, attemptError]
        simp only [Option.some.injEq] at he ⊢
        exact he
    }

theorem callLoop_zero (lastErr : Option NetError) :
    ∀ urls : List UrlTrial, callLoop 0 lastErr urls = (0, Option.none, lastErr) := by
  intro urls
  induction urls with
  | nil => rfl
  | cons u rest ih =>
    simp only [callLoop]
    split
    · exact ih
    · show (0 + (callLoop 0 lastErr rest).1,
          (callLoop 0 lastErr rest).2.1, (callLoop 0 lastErr rest).2.2)
        = (0, Option.none, lastErr)
      rw [ih]
      rfl

theorem callLoop_last_err (maxR : Nat) (hmax : 1 ≤ maxR) :
    ∀ (urls : List UrlTrial) (lastErr : Option NetError) (u : UrlTrial),
      urls.getLast? = some u →
      (callLoop maxR lastErr urls).2.1 = Option.none →
      (tryUrl u.outcomes 0 maxR).2.1 = Option.none ∧
      (callLoop maxR lastErr urls).2.2 = (tryUrl u.outcomes 0 maxR).2.2 := by
  intro urls
  induction urls with
  | nil => intro lastErr u hu; simp at hu
  | cons u0 rest ih =>
    intro lastErr u hu hnone
    cases rest with
    | nil =>
      rw [List.getLast?_singleton, Option.some.injEq] at hu
      subst hu
      simp only [callLoop, List.isEmpty_nil, Bool.not_true, Bool.and_false,
        Bool.false_eq_true, if_false] at hnone ⊢
      rcases ht : (tryUrl u0.outcomes 0 maxR).2.1 with _ | v
      · refine ⟨rfl, ?_⟩
        rcases he : (tryUrl u0.outcomes 0 maxR).2.2 with _ | e
        · rcases tryUrl_produces u0.outcomes 0 maxR hmax with hs | hs
          · rw [ht] at hs; simp at hs
          · rw [he] at hs; simp at hs
        · rfl
      · rw [ht] at hnone
        simp at hnone
    | cons r rs =>
      rw [List.getLast?_cons_cons] at hu
      rw [callLoop.eq_def] at hnone
      rw [callLoop.eq_def]
      dsimp only at hnone ⊢
      by_cases hskip : (!u0.healthy && !(r :: rs).isEmpty) = true
      · rw [if_pos hskip] at hnone ⊢
        exact ih lastErr u hu hnone
      · rw [if_neg hskip] at hnone ⊢
        rcases ht : (tryUrl u0.outcomes 0 maxR).2.1 with _ | v
        · rw [ht] at hnone
          dsimp only at hnone ⊢
          exact ih _ u hu hnone
        · rw [ht] at hnone
          dsimp only at hnone
          simp at hnone

/-- C6 (amended): a `callRPC` invocation over `U` configured URLs with
per-URL retry budget `maxRetriesPerUrl` makes at most `U × maxRetriesPerUrl`
HTTP attempts; when every attempt fails it throws a single error whose
message is `"All RPC endpoints failed: " + <detail of the last error>`: the
final URL of the list is the last one tried (it is never skipped), every one
of its `k` attempts fails, and the message carries `getErrorMessage e` where
`e` is the error recorded for its final attempt (the `(k-1)`-th against
that URL); with at least one URL and a positive retry budget the call always
produces either a result or that error. -/
theorem c6_failover_attempts_bound (maxR : Nat) (urls : List UrlTrial) :
    (callRPC maxR urls).attempts ≤ urls.length * maxR ∧
    (∀ n msg, callRPC maxR urls = .failed n msg →
      ∃ u k e, urls.getLast? = some u ∧
        tryUrl u.outcomes 0 maxR = (k, Option.none, some e) ∧
        1 ≤ k ∧ k ≤ maxR ∧
        attemptError (u.outcomes (k - 1)) = some e ∧
        msg = "All RPC endpoints failed: " ++ getErrorMessage e) ∧
    (urls ≠ [] → 1 ≤ maxR → ∀ n, callRPC maxR urls ≠ .crashed n) := by
  refine ⟨?_, ?_, ?_⟩
  · have h := callLoop_attempts_le maxR urls Option.none
    rcases h1 : (callLoop maxR Option.none urls).2.1 with _ | v
    · rcases h2 : (callLoop maxR Option.none urls).2.2 with _ | e
      · simpa [callRPC, h1, h2, CallResult.attempts] using h
      · simpa [callRPC, h1, h2, CallResult.attempts] using h
    · simpa [callRPC, h1, CallResult.attempts] using h
  · intro n msg heq
    rcases h1 : (callLoop maxR Option.none urls).2.1 with _ | v
    · rcases h2 : (callLoop maxR Option.none urls).2.2 with _ | e
      · rw [callRPC] at heq
        simp only [h1, h2] at heq
        exact absurd heq (by simp)
      · rw [callRPC] at heq
        simp only [h1, h2, CallResult.failed.injEq] at heq
        cases maxR with
        | zero =>
          rw [callLoop_zero Option.none urls] at h2
          simp at h2
        | succ m =>
          have hmax : 1 ≤ m + 1 := by omega
          rcases hu : urls.getLast? with _ | u
          · rw [List.getLast?_eq_none_iff] at hu
            rw [hu] at h2
            simp [callLoop] at h2
          · obtain ⟨ht1, ht2⟩ := callLoop_last_err (m + 1) hmax urls Option.none u hu h1
            have ht3 : (tryUrl u.outcomes 0 (m + 1)).2.2 = some e := ht2.symm.trans h2
            have htrip : tryUrl u.outcomes 0 (m + 1)
                = ((tryUrl u.outcomes 0 (m + 1)).1, (tryUrl u.outcomes 0 (m + 1)).2.1,
                    (tryUrl u.outcomes 0 (m + 1)).2.2) := rfl
            rw [ht1, ht3] at htrip
            obtain ⟨hk1, hk2, hke⟩ := tryUrl_last_err u.outcomes (m + 1) 0 _ e htrip
            refine ⟨u, (tryUrl u.outcomes 0 (m + 1)).1, e, rfl, htrip, hk1, hk2, ?_,
              heq.2.symm⟩
            simpa using hke
    · rw [callRPC] at heq
      simp only [h1] at heq
      exact absurd heq (by simp)
  · intro hne hmax n heq
    rcases callLoop_nonempty_produces maxR hmax urls Option.none hne with hs | he
    · rcases h1 : (callLoop maxR Option.none urls).2.1 with _ | v
      · rw [h1] at hs
        simp at hs
      · rw [callRPC] at heq
        simp only [h1] at heq
        exact absurd heq (by simp)
    · rcases h1 : (callLoop maxR Option.none urls).2.1 with _ | v
      · rcases h2 : (callLoop maxR Option.none urls).2.2 with _ | e
        · rw [h2] at he
          simp at he
        · rw [callRPC] at heq
          simp only [h1, h2] at heq
          exact absurd heq (by simp)
      · rw [callRPC] at heq
        simp only [h1] at heq
        exact absurd heq (by simp)

theorem c6_failover_attempts_bound_witness :
    ∃ u k e,
      ([⟨true, fun _ => AttemptResult.netError
            ⟨"connect ECONNREFUSED", some "ECONNREFUSED", Option.none, true⟩⟩]
          : List UrlTrial).getLast? = some u ∧
      tryUrl u.outcomes 0 1 = (k, Option.none, some e) ∧
      1 ≤ k ∧ k ≤ 1 ∧
      attemptError (u.outcomes (k - 1)) = some e ∧
      "All RPC endpoints failed: No response (ECONNREFUSED)"
        = "All RPC endpoints failed: " ++ getErrorMessage e :=
  (c6_failover_attempts_bound 1
      [⟨true, fun _ => .netError ⟨"connect ECONNREFUSED", some "ECONNREFUSED",
                                  Option.none, true⟩⟩]).2.1
    1 "All RPC endpoints failed: No response (ECONNREFUSED)" rfl

/-- C6 counterexample: on a concrete all-failing run the thrown message
starts with `"All RPC endpoints failed: "`, not with the claimed
`"all endpoints failed: "`. -/
theorem c6_error_message_counterexample :
    callRPC 1 [⟨true, fun _ => .netError ⟨"connect ECONNREFUSED", some "ECONNREFUSED",
                                          Option.none, true⟩⟩]
      = .failed 1 "All RPC endpoints failed: No response (ECONNREFUSED)" ∧
    ("all endpoints failed: ".data.isPrefixOf
        "All RPC endpoints failed: No response (ECONNREFUSED)".data) = false :=
  ⟨rfl, by decide⟩

/-! ## Round-trip of `Json.parse` over `Json.stringify` (towards C7 and C10) -/

theorem digitChar_isDigit (d : Nat) (h : d < 10) : (digitChar d).isDigit = true := by
  interval_cases d <;> rfl

theorem digitChar_val (d : Nat) (h : d < 10) : (digitChar d).toNat - 48 = d := by
  interval_cases d <;> rfl

theorem hexVal_hexChar (d : Nat) (h : d < 16) : hexVal (hexChar d) = some d := by
  interval_cases d <;> rfl

theorem natToCharsAux_digits (n : Nat) :
    ∀ (acc : List Char), (∀ c ∈ acc, c.isDigit = true) →
      ∀ c ∈ natToCharsAux n acc, c.isDigit = true := by
  induction n using Nat.strong_induction_on with
  | _ n ih =>
    intro acc hacc c hc
    rw [natToCharsAux] at hc
    split at hc
    · rcases List.mem_cons.mp hc with hceq | hmem
      · rw [hceq]; exact digitChar_isDigit n (by omega)
      · exact hacc c hmem
    · rename_i h10
      refine ih (n / 10) (Nat.div_lt_self (by omega) (by omega)) _ ?_ c hc
      intro c2 hc2
      rcases List.mem_cons.mp hc2 with hceq | hmem
      · rw [hceq]; exact digitChar_isDigit (n % 10) (Nat.mod_lt _ (by omega))
      · exact hacc c2 hmem

theorem natToCharsAux_cons (n : Nat) :
    ∀ (acc : List Char), ∃ d t, natToCharsAux n acc = d :: t ∧ d.isDigit = true := by
  induction n using Nat.strong_induction_on with
  | _ n ih =>
    intro acc
    rw [natToCharsAux]
    split
    · exact ⟨digitChar n, acc, rfl, digitChar_isDigit n (by omega)⟩
    · rename_i h10
      exact ih (n / 10) (Nat.div_lt_self (by omega) (by omega)) _

theorem natToChars_digits (n : Nat) : ∀ c ∈ natToChars n, c.isDigit = true :=
  natToCharsAux_digits n [] (by intro c hc; cases hc)

theorem natToChars_cons (n : Nat) :
    ∃ d t, natToChars n = d :: t ∧ d.isDigit = true :=
  natToCharsAux_cons n []

theorem natToCharsAux_foldl (n : Nat) :
    ∀ (acc : List Char) (a : Nat), ∃ k,
      (natToCharsAux n acc).foldl (fun a c => a * 10 + (c.toNat - 48)) a
        = acc.foldl (fun a c => a * 10 + (c.toNat - 48)) (a * 10 ^ k + n) := by
  induction n using Nat.strong_induction_on with
  | _ n ih =>
    intro acc a
    rw [natToCharsAux]
    split
    · rename_i h10
      refine ⟨1, ?_⟩
      simp only [List.foldl_cons]
      rw [digitChar_val n (by omega)]
      norm_num
    · rename_i h10
      obtain ⟨k, hk⟩ := ih (n / 10) (Nat.div_lt_self (by omega) (by omega))
        (digitChar (n % 10) :: acc) a
      refine ⟨k + 1, ?_⟩
      rw [hk]
      simp only [List.foldl_cons]
      rw [digitChar_val (n % 10) (Nat.mod_lt _ (by omega))]
      congr 1
      rw [pow_succ, ← mul_assoc]
      omega

theorem digitsVal_natToChars (n : Nat) : digitsVal (natToChars n) = n := by
  obtain ⟨k, hk⟩ := natToCharsAux_foldl n [] 0
  simpa [digitsVal, natToChars] using hk

theorem takeDigits_append (ds rest : List Char)
    (hds : ∀ c ∈ ds, c.isDigit = true) (hr : stopOk rest = true) :
    takeDigits (ds ++ rest) = (ds, rest) := by
  induction ds with
  | nil =>
    cases rest with
    | nil => rfl
    | cons c t =>
      have hcd : c.isDigit = false := by
        have hc3 : (c = ',' ∨ c = ']') ∨ c = '\x7d' := by simpa [stopOk] using hr
        rcases hc3 with (rfl | rfl) | rfl <;> rfl
      simp [takeDigits, hcd]
  | cons d ds ih =>
    have hd : d.isDigit = true := hds d (List.mem_cons_self d ds)
    have ih2 := ih (fun c hc => hds c (List.mem_cons_of_mem d hc))
    simp [takeDigits, hd, ih2]

theorem escStr_append (a b : List Char) : escStr (a ++ b) = escStr a ++ escStr b := by
  induction a with
  | nil => rfl
  | cons c cs ih => simp [escStr, ih]

theorem scanString_esc (s : List Char) :
    ∀ (rest : List Char), scanString (escStr s ++ '"' :: rest) = some (s, rest) := by
  induction s with
  | nil =>
    intro rest
    show scanString ('"' :: rest) = some ([], rest)
    rw [scanString.eq_def]
    norm_num
  | cons c cs ih =>
    intro rest
    show scanString ((escChar c ++ escStr cs) ++ '"' :: rest) = some (c :: cs, rest)
    rw [List.append_assoc]
    by_cases h1 : c = '"'
    · subst h1
      show scanString ('\\' :: '"' :: (escStr cs ++ '"' :: rest)) = _
      rw [scanString.eq_def]; norm_num; rw [ih]; rfl
    · by_cases h2 : c = '\\'
      · subst h2
        show scanString ('\\' :: '\\' :: (escStr cs ++ '"' :: rest)) = _
        rw [scanString.eq_def]; norm_num; rw [ih]; rfl
      · by_cases h3 : c = '\x08'
        · subst h3
          show scanString ('\\' :: 'b' :: (escStr cs ++ '"' :: rest)) = _
          rw [scanString.eq_def]; norm_num; rw [ih]; rfl
        · by_cases h4 : c = '\t'
          · subst h4
            show scanString ('\\' :: 't' :: (escStr cs ++ '"' :: rest)) = _
            rw [scanString.eq_def]; norm_num; rw [ih]; rfl
          · by_cases h5 : c = '\n'
            · subst h5
              show scanString ('\\' :: 'n' :: (escStr cs ++ '"' :: rest)) = _
              rw [scanString.eq_def]; norm_num; rw [ih]; rfl
            · by_cases h6 : c = '\x0c'
              · subst h6
                show scanString ('\\' :: 'f' :: (escStr cs ++ '"' :: rest)) = _
                rw [scanString.eq_def]; norm_num; rw [ih]; rfl
              · by_cases h7 : c = '\x0d'
                · subst h7
                  show scanString ('\\' :: 'r' :: (escStr cs ++ '"' :: rest)) = _
                  rw [scanString.eq_def]; norm_num; rw [ih]; rfl
                · by_cases h8 : c.toNat < 32
                  · have e1 : escChar c = ['\\', 'u', '0', '0',
                        hexChar (c.toNat / 16), hexChar (c.toNat % 16)] := by
                      rw [escChar]
                      simp [h1, h2, h3, h4, h5, h6, h7, h8]
                    rw [e1]
                    show scanString ('\\' :: 'u' :: '0' :: '0' :: hexChar (c.toNat / 16)
                        :: hexChar (c.toNat % 16) :: (escStr cs ++ '"' :: rest)) = _
                    rw [scanString.eq_def]
                    simp only [show (('\\':Char) = '"') ↔ False by decide,
                      show (('u':Char) = '"') ↔ False by decide,
                      show (('u':Char) = '\\') ↔ False by decide,
                      show (('u':Char) = '/') ↔ False by decide,
                      show (('u':Char) = 'b') ↔ False by decide,
                      show (('u':Char) = 't') ↔ False by decide,
                      show (('u':Char) = 'n') ↔ False by decide,
                      show (('u':Char) = 'f') ↔ False by decide,
                      show (('u':Char) = 'r') ↔ False by decide,
                      show (('u':Char) = 'u') ↔ True by simp,
                      if_false, if_true]
                    rw [show hexVal '0' = some 0 from rfl,
                      hexVal_hexChar _ (by omega),
                      hexVal_hexChar _ (Nat.mod_lt _ (by omega))]
                    dsimp only
                    rw [ih]
                    have harith : ((0 * 16 + 0) * 16 + c.toNat / 16) * 16 + c.toNat % 16
                        = c.toNat := by omega
                    rw [harith, Char.ofNat_toNat]
                    rfl
                  · have e1 : escChar c = [c] := by
                      rw [escChar]
                      simp [h1, h2, h3, h4, h5, h6, h7, h8]
                    rw [e1]
                    show scanString (c :: (escStr cs ++ '"' :: rest)) = _
                    rw [scanString.eq_def]
                    simp only [h1, h2, if_false, ih]
                    rfl


theorem cost_pos (v : Json) : 1 ≤ cost v := by
  cases v <;> simp [cost]

theorem isDigit_ne_reserved (c : Char) (h : c.isDigit = true) :
    ¬ c = 'n' ∧ ¬ c = 't' ∧ ¬ c = 'f' ∧ ¬ c = '"' ∧ ¬ c = '-' := by
  refine ⟨?_, ?_, ?_, ?_, ?_⟩ <;> (rintro rfl; revert h; decide)

theorem stringify_head (v : Json) :
    ∃ c t, stringifyChars v = c :: t ∧
      (c = 'n' ∨ c = 't' ∨ c = 'f' ∨ c = '"' ∨ c = '-' ∨ c.isDigit = true
        ∨ c = '[' ∨ c = '\x7b') := by
  cases v with
  | null => exact ⟨'n', ['u', 'l', 'l'], by simp [stringifyChars], by simp⟩
  | bool b =>
    cases b
    · exact ⟨'f', ['a', 'l', 's', 'e'], by simp [stringifyChars], by simp⟩
    · exact ⟨'t', ['r', 'u', 'e'], by simp [stringifyChars], by simp⟩
  | num n =>
    by_cases hn : n < 0
    · exact ⟨'-', natToChars n.natAbs, by simp [stringifyChars, intToChars, hn], by simp⟩
    · obtain ⟨d, t, hdt, hd⟩ := natToChars_cons n.toNat
      exact ⟨d, t, by simp [stringifyChars, intToChars, hn, hdt], by simp [hd]⟩
  | str s => exact ⟨'"', escStr s.data ++ ['"'], by simp [stringifyChars], by simp⟩
  | arr items =>
    cases items with
    | nil => exact ⟨'[', [']'], by simp [stringifyChars], by simp⟩
    | cons v vs =>
      exact ⟨'[', stringifyChars v ++ (stringifyItems vs ++ [']']),
        by simp [stringifyChars], by simp⟩
  | obj fields =>
    cases fields with
    | nil => exact ⟨'\x7b', ['\x7d'], by simp [stringifyChars], by simp⟩
    | cons f fs =>
      exact ⟨'\x7b', stringifyField f ++ (stringifyFields fs ++ ['\x7d']),
        by simp [stringifyChars], by simp⟩

theorem parseVal_lbracket (f : Nat) (cs : List Char) :
    parseVal (f + 1) ('[' :: cs)
      = (match cs with
         | ']' :: r => some (Json.arr [], r)
         | _ => (parseItems f cs).map (fun p => (Json.arr p.1, p.2))) := rfl

theorem parseVal_lbrace (f : Nat) (cs : List Char) :
    parseVal (f + 1) ('\x7b' :: cs)
      = (match cs with
         | '\x7d' :: r => some (Json.obj [], r)
         | _ => (parseFields f cs).map (fun p => (Json.obj p.1, p.2))) := rfl

theorem parseVal_digit (f : Nat) (c : Char) (cs : List Char) (h : c.isDigit = true) :
    parseVal (f + 1) (c :: cs) = parseNumToken false (c :: cs) := by
  obtain ⟨q1, q2, q3, q4, q5⟩ := isDigit_ne_reserved c h
  rw [parseVal.eq_def]
  dsimp only
  rw [if_neg q1, if_neg q2, if_neg q3, if_neg q4, if_neg q5, if_pos h]

theorem parseNumToken_chars (neg : Bool) (m : Nat) (rest : List Char)
    (hr : stopOk rest = true) :
    parseNumToken neg (natToChars m ++ rest)
      = some (.num (if neg then -(m : Int) else (m : Int)), rest) := by
  obtain ⟨d, t, hdt, _⟩ := natToChars_cons m
  simp only [parseNumToken]
  rw [takeDigits_append _ _ (natToChars_digits _) hr]
  simp only [hdt, reduceCtorEq, if_false]
  rw [← hdt, digitsVal_natToChars]

theorem parseFields_quote (g : Nat) (cs1 : List Char) :
    parseFields (g + 1) ('"' :: cs1)
      = (do
          let p ← scanString cs1
          match p.2 with
          | ':' :: r1 => do
            let q ← parseVal g r1
            match q.2 with
            | ',' :: r3 => do
              let r ← parseFields g r3
              pure ((⟨p.1⟩, q.1) :: r.1, r.2)
            | '\x7d' :: r3 => pure ([(⟨p.1⟩, q.1)], r3)
            | _ => none
          | _ => none) := rfl

mutual
theorem parseVal_stringify (v : Json) :
    ∀ (fuel : Nat) (rest : List Char), cost v ≤ fuel → stopOk rest = true →
      parseVal fuel (stringifyChars v ++ rest) = some (v, rest) := by
  cases v with
  | null =>
    intro fuel rest hf _
    obtain ⟨f, rfl⟩ : ∃ f, fuel = f + 1 := ⟨fuel - 1, by simp [cost] at hf; omega⟩
    simp only [stringifyChars, List.cons_append, List.nil_append]
    rfl
  | bool b =>
    intro fuel rest hf _
    obtain ⟨f, rfl⟩ : ∃ f, fuel = f + 1 := ⟨fuel - 1, by simp [cost] at hf; omega⟩
    cases b <;>
      (simp only [stringifyChars, List.cons_append, List.nil_append]; rfl)
  | num n =>
    intro fuel rest hf hr
    obtain ⟨f, rfl⟩ : ∃ f, fuel = f + 1 := ⟨fuel - 1, by simp [cost] at hf; omega⟩
    by_cases hn : n < 0
    · simp only [stringifyChars, intToChars, hn, if_true, List.cons_append]
      show parseNumToken true (natToChars n.natAbs ++ rest) = some (.num n, rest)
      rw [parseNumToken_chars true n.natAbs rest hr]
      have he : -((n.natAbs : Nat) : Int) = n := by omega
      simp only [if_true, he]
    · simp only [stringifyChars, intToChars, hn, if_false]
      obtain ⟨d, t, hdt, hd⟩ := natToChars_cons n.toNat
      rw [hdt, List.cons_append, parseVal_digit f d (t ++ rest) hd, ← List.cons_append,
        ← hdt, parseNumToken_chars false n.toNat rest hr]
      have he : ((n.toNat : Nat) : Int) = n := by omega
      simp [he]
  | str s =>
    intro fuel rest hf hr
    obtain ⟨f, rfl⟩ : ∃ f, fuel = f + 1 := ⟨fuel - 1, by simp [cost] at hf; omega⟩
    obtain ⟨sd⟩ := s
    simp only [stringifyChars, List.cons_append, List.append_assoc, List.singleton_append,
      List.nil_append]
    show (scanString (escStr sd ++ '"' :: rest)).map
        (fun p => (Json.str ⟨p.1⟩, p.2)) = some (.str ⟨sd⟩, rest)
    rw [scanString_esc]
    rfl
  | arr items =>
    cases items with
    | nil =>
      intro fuel rest hf _
      obtain ⟨f, rfl⟩ : ∃ f, fuel = f + 1 := ⟨fuel - 1, by simp [cost] at hf; omega⟩
      simp only [stringifyChars, List.cons_append, List.nil_append]
      rfl
    | cons v vs =>
      intro fuel rest hf hr
      have hf1 : 1 + costItems (v :: vs) ≤ fuel := by simpa [cost] using hf
      obtain ⟨f, rfl⟩ : ∃ f, fuel = f + 1 := ⟨fuel - 1, by omega⟩
      simp only [stringifyChars, List.cons_append]
      rw [List.append_assoc, List.append_assoc, List.singleton_append]
      rw [parseVal_lbracket]
      obtain ⟨c0, t0, hc0, hc0s⟩ := stringify_head v
      rw [hc0, List.cons_append]
      split
      · rename_i heq
        exfalso
        have hcc : c0 = ']' := (List.cons.inj heq).1
        rw [hcc] at hc0s
        rcases hc0s with h | h | h | h | h | h | h | h <;> revert h <;> decide
      · rw [show c0 :: (t0 ++ (stringifyItems vs ++ (']' :: rest)))
              = stringifyChars v ++ (stringifyItems vs ++ (']' :: rest)) from by
            rw [hc0, List.cons_append]]
        rw [parseItems_stringify v vs f rest (by omega) hr]
        rfl
  | obj fields =>
    cases fields with
    | nil =>
      intro fuel rest hf _
      obtain ⟨f, rfl⟩ : ∃ f, fuel = f + 1 := ⟨fuel - 1, by simp [cost] at hf; omega⟩
      simp only [stringifyChars, List.cons_append, List.nil_append]
      rfl
    | cons f0 fs =>
      intro fuel rest hf hr
      have hf1 : 1 + costFields (f0 :: fs) ≤ fuel := by simpa [cost] using hf
      obtain ⟨f, rfl⟩ : ∃ f, fuel = f + 1 := ⟨fuel - 1, by omega⟩
      simp only [stringifyChars, List.cons_append]
      rw [List.append_assoc, List.append_assoc, List.singleton_append]
      rw [parseVal_lbrace]
      have hsf : ∃ t0, stringifyField f0 = '"' :: t0 := by
        obtain ⟨k, v⟩ := f0
        exact ⟨escStr k.data ++ ('"' :: ':' :: stringifyChars v), by simp [stringifyField]⟩
      obtain ⟨t0, hc0⟩ := hsf
      rw [hc0, List.cons_append]
      split
      · rename_i heq
        exact absurd (List.cons.inj heq).1 (by decide)
      · rw [show ('"' :: (t0 ++ (stringifyFields fs ++ ('\x7d' :: rest))) : List Char)
              = stringifyField f0 ++ (stringifyFields fs ++ ('\x7d' :: rest)) from by
            rw [hc0, List.cons_append]]
        rw [parseFields_stringify f0 fs f rest (by omega) hr]
        rfl
termination_by sizeOf v

theorem parseItems_stringify (v : Json) (vs : List Json) :
    ∀ (fuel : Nat) (rest : List Char), costItems (v :: vs) ≤ fuel → stopOk rest = true →
      parseItems fuel (stringifyChars v ++ (stringifyItems vs ++ (']' :: rest)))
        = some (v :: vs, rest) := by
  intro fuel rest hf hr
  rw [costItems] at hf
  obtain ⟨g, rfl⟩ : ∃ g, fuel = g + 1 := ⟨fuel - 1, by omega⟩
  have hM : max (cost v) (costItems vs) ≤ g := by omega
  have hstop : stopOk (stringifyItems vs ++ (']' :: rest)) = true := by
    cases vs with
    | nil => simp [stringifyItems, stopOk]
    | cons w ws => simp [stringifyItems, stopOk, List.cons_append]
  rw [parseItems.eq_def]
  dsimp only
  rw [parseVal_stringify v g _ (le_trans (le_max_left _ _) hM) hstop]
  cases vs with
  | nil =>
    simp only [stringifyItems, List.nil_append]
    rfl
  | cons w ws =>
    simp only [stringifyItems, List.cons_append, List.append_assoc]
    simp only [Option.bind_eq_bind, Option.some_bind]
    rw [parseItems_stringify w ws g rest (le_trans (le_max_right (cost v) _) hM) hr]
    rfl
termination_by sizeOf v + sizeOf vs + 1
decreasing_by
  all_goals
    simp_wf
    subst_vars
    simp_wf
    omega

theorem parseFields_stringify (f0 : String × Json) (fs : List (String × Json)) :
    ∀ (fuel : Nat) (rest : List Char), costFields (f0 :: fs) ≤ fuel → stopOk rest = true →
      parseFields fuel (stringifyField f0 ++ (stringifyFields fs ++ ('\x7d' :: rest)))
        = some (f0 :: fs, rest) := by
  obtain ⟨k, v⟩ := f0
  intro fuel rest hf hr
  rw [costFields] at hf
  obtain ⟨g, rfl⟩ : ∃ g, fuel = g + 1 := ⟨fuel - 1, by omega⟩
  have hM : max (cost v) (costFields fs) ≤ g := by omega
  obtain ⟨kd⟩ := k
  simp only [stringifyField, List.cons_append, List.append_assoc]
  rw [parseFields_quote]
  rw [show (escStr (String.data ⟨kd⟩) ++ '"' :: ':' :: (stringifyChars v
        ++ (stringifyFields fs ++ ('\x7d' :: rest))) : List Char)
      = escStr kd ++ '"' :: (':' :: (stringifyChars v
        ++ (stringifyFields fs ++ ('\x7d' :: rest)))) from rfl]
  rw [scanString_esc]
  simp only [Option.bind_eq_bind, Option.some_bind]
  have hstop : stopOk (stringifyFields fs ++ ('\x7d' :: rest)) = true := by
    cases fs with
    | nil => simp [stringifyFields, stopOk]
    | cons g0 gs => simp [stringifyFields, stopOk, List.cons_append]
  rw [parseVal_stringify v g _ (le_trans (le_max_left _ _) hM) hstop]
  cases fs with
  | nil =>
    simp only [stringifyFields, List.nil_append]
    rfl
  | cons g0 gs =>
    simp only [stringifyFields, List.cons_append, List.append_assoc]
    simp only [Option.bind_eq_bind, Option.some_bind]
    rw [parseFields_stringify g0 gs g rest (le_trans (le_max_right (cost v) _) hM) hr]
    rfl
termination_by sizeOf f0 + sizeOf fs + 1
decreasing_by
  all_goals
    simp_wf
    subst_vars
    simp_wf
    omega
end

theorem stringifyChars_ne_nil (v : Json) : stringifyChars v ≠ [] := by
  obtain ⟨c, t, hc, _⟩ := stringify_head v
  rw [hc]
  exact List.cons_ne_nil c t

mutual
theorem cost_le_len (v : Json) : cost v ≤ (stringifyChars v).length := by
  cases v with
  | null => simp [cost, stringifyChars]
  | bool b => cases b <;> simp [cost, stringifyChars]
  | num n =>
    by_cases hn : n < 0
    · simp [cost, stringifyChars, intToChars, hn]
    · obtain ⟨d, t, hdt, _⟩ := natToChars_cons n.toNat
      simp [cost, stringifyChars, intToChars, hn, hdt]
  | str s => simp [cost, stringifyChars]
  | arr items =>
    cases items with
    | nil => simp [cost, costItems, stringifyChars]
    | cons w ws =>
      have h1 := cost_le_len w
      have h2 := costItems_le_len ws
      simp only [cost, costItems, stringifyChars, List.length_cons, List.length_append]
      omega
  | obj fields =>
    cases fields with
    | nil => simp [cost, costFields, stringifyChars]
    | cons f fs =>
      have h2 := costFields_le_len fs
      obtain ⟨k, v⟩ := f
      have h1 := cost_le_len v
      simp only [cost, costFields, stringifyChars, stringifyField, List.length_cons,
        List.length_append]
      omega
termination_by sizeOf v

theorem costItems_le_len (items : List Json) :
    costItems items ≤ (stringifyItems items).length := by
  cases items with
  | nil => simp [costItems, stringifyItems]
  | cons w ws =>
    have h1 := cost_le_len w
    have h2 := costItems_le_len ws
    have h3 := stringifyChars_ne_nil w
    have h4 : 1 ≤ (stringifyChars w).length := by
      cases hw : stringifyChars w with
      | nil => exact absurd hw h3
      | cons a b => simp
    simp only [costItems, stringifyItems, List.length_cons, List.length_append]
    omega
termination_by sizeOf items

theorem costFields_le_len (fields : List (String × Json)) :
    costFields fields ≤ (stringifyFields fields).length := by
  cases fields with
  | nil => simp [costFields, stringifyFields]
  | cons f fs =>
    have h2 := costFields_le_len fs
    obtain ⟨k, v⟩ := f
    have h1 := cost_le_len v
    simp only [costFields, stringifyFields, stringifyField, List.length_cons,
      List.length_append]
    omega
termination_by sizeOf fields
end

theorem stringify_parse_roundtrip (v : Json) : Json.parse (Json.stringify v) = some v := by
  have hlen : (Json.stringify v).length = (stringifyChars v).length := rfl
  have hdata : (Json.stringify v).data = stringifyChars v := rfl
  rw [Json.parse, hlen, hdata]
  have h := parseVal_stringify v ((stringifyChars v).length + 1) []
    (le_trans (cost_le_len v) (by omega)) rfl
  rw [List.append_nil] at h
  rw [h]

/-! ## C10: cache set/get round-trip -/

/-- C10: for every key and JSON value, a `CacheManager.get` performed after
`CacheManager.set` and before the entry expires returns a value structurally
equal to the one stored — the `JSON.stringify`/`JSON.parse` round-trip is the
identity on JSON values — and `get` of an absent key returns `null`. -/
theorem c10_cache_roundtrip (st : MemStore) (key : String) (v : Json)
    (ttl : Option Nat) (now t : Nat) (hkey : key ≠ "")
    (hfresh : ∀ d, ttl = some d → t < now + d * 1000) :
    cmGet (cmSet st key v ttl now) key t = v ∧
    (∀ (st2 : MemStore) (k2 : String) (t2 : Nat),
      memGetRaw st2 k2 t2 = Option.none → cmGet st2 k2 t2 = .null) := by
  constructor
  · rw [cmSet, if_neg hkey, cmGet, if_neg hkey]
    have hraw : memGetRaw (memSet st key (Json.stringify v) ttl now) key t
        = some (Json.stringify v) := by
      cases ttl with
      | none => simp [memSet, memGetRaw]
      | some d => simp [memSet, memGetRaw, show t < now + d * 1000 from hfresh d rfl]
    rw [hraw]
    have hne : Json.stringify v ≠ "" := by
      intro h
      have hd := congrArg String.data h
      rw [show (Json.stringify v).data = stringifyChars v from rfl] at hd
      exact stringifyChars_ne_nil v hd
    dsimp only
    rw [if_neg hne, stringify_parse_roundtrip]
  · intro st2 k2 t2 h
    rw [cmGet]
    by_cases hk2 : k2 = ""
    · rw [if_pos hk2]
    · rw [if_neg hk2, h]

theorem c10_cache_roundtrip_witness :
    cmGet (cmSet [] "eth_blockNumber:[]" (.str "0x10") (some 2) 1000) "eth_blockNumber:[]" 2500
      = .str "0x10" :=
  (c10_cache_roundtrip [] "eth_blockNumber:[]" (.str "0x10") (some 2) 1000 2500
    (by decide) (fun d hd => by cases hd; decide)).1

/-! ## C7: a fresh positive hit never reads the stale sibling -/

/-- C7: whenever the plain `CacheManager.get` returns a value (non-`null`),
`getWithStale` returns that same fresh value with `isStale = false`, reads
only the positive key, and never touches the `stale:<key>` sibling. -/
theorem c7_fresh_hit_no_stale_read (swr : Bool) (st : MemStore) (key : String)
    (now : Nat) (h : cmGet st key now ≠ .null) :
    getWithStale swr st key now
      = { value := cmGet st key now, isStale := false, reads := [key] } ∧
    "stale:" ++ key ∉ (getWithStale swr st key now).reads := by
  have hkey : key ≠ "" := by
    intro hk
    apply h
    rw [cmGet, if_pos hk]
  have hself : key ≠ "stale:" ++ key := by
    intro hk
    have hl := congrArg String.length hk
    rw [String.length_append] at hl
    have h5 : "stale:".length = 6 := rfl
    omega
  rw [cmGet, if_neg hkey] at h
  rcases hraw : memGetRaw st key now with _ | s
  · rw [hraw] at h
    dsimp only at h
    exact absurd rfl h
  · rw [hraw] at h
    dsimp only at h
    by_cases hs : s = ""
    · rw [if_pos hs] at h
      exact absurd rfl h
    · rw [if_neg hs] at h
      rcases hp : Json.parse s with _ | j
      · rw [hp] at h
        dsimp only at h
        exact absurd rfl h
      · have hcm : cmGet st key now = j := by
          rw [cmGet, if_neg hkey, hraw]
          dsimp only
          rw [if_neg hs, hp]
        have hgw : getWithStale swr st key now
            = { value := j, isStale := false, reads := [key] } := by
          rw [getWithStale, if_neg hkey, hraw]
          dsimp only
          rw [if_neg hs, hp]
        rw [hgw, hcm]
        refine ⟨rfl, ?_⟩
        intro hmem
        have hk := List.mem_singleton.mp hmem
        exact hself hk.symm

theorem c7_fresh_hit_no_stale_read_witness :
    getWithStale true [("k", ⟨"\"v\"", Option.none⟩)] "k" 0
      = { value := Json.str "v", isStale := false, reads := ["k"] } :=
  (c7_fresh_hit_no_stale_read true [("k", ⟨"\"v\"", Option.none⟩)] "k" 0
    (by intro h; rw [show cmGet [("k", ⟨"\"v\"", Option.none⟩)] "k" 0 = Json.str "v" from rfl] at h; cases h)).1

/-- C5 witness: a concrete acquired producer run both releases the lock
exactly once and a concrete `SET NX` on a live lock key leaves the store
unchanged. -/
theorem c5_lock_release_iff_acquired_witness :
    LockEvent.release ∈ (coalescerProducer "k" true true Option.none Option.none
      (.ok (.str "v"))).2 ∧
    memSetNX [("lock:k", ⟨"pid-1", Option.none⟩)] ("lock:" ++ "k") "pid-2" (some 5) 0
      = [("lock:k", ⟨"pid-1", Option.none⟩)] :=
  ⟨(c5_lock_release_iff_acquired "k" true Option.none Option.none (.ok (.str "v"))).1.mpr rfl,
   (c5_lock_release_iff_acquired "k" true Option.none Option.none (.ok (.str "v"))).2.2.2
     [("lock:k", ⟨"pid-1", Option.none⟩)] "pid-2" (some 5) 0 rfl⟩

end Proxy
